import Mathlib

/-!
Verification of the Dataverse backend core: shallow embedding of the
query-generator service (`src/services/query-generator.service.ts`), the
schema service (schema extraction and relationship detection), and the
MongoDB connection-pool manager (`src/models/ChatHistory.ts`), together
with theorems settling the specification claims about them.

JavaScript records (`Record<string, any>`) are embedded as ordered
association lists, JS values as an inductive JSON-like type, and machine
`number`s as exact integers/rationals.  Host-language built-ins used by the
code (`JSON.stringify`, `Number(...)`, the regex engine) are embedded
directly below, faithful to their documented behaviour on the value shapes
this program produces (ASCII text, plain objects without prototype-chain
tricks, decimal numerals).
-/

namespace Dataverse

/-- JSON-like values, the embedding of the `any`-typed filter/pipeline data
flowing through the query generator. -/
inductive JValue where
  | null
  | bool (b : Bool)
  | num (n : Int)
  | str (s : String)
  | arr (elems : List JValue)
  | obj (entries : List (String × JValue))
deriving Repr

/-- JS truthiness of an embedded value (`null`, `false`, `0` and `""` are
falsy; arrays and objects are always truthy). -/
def truthyJ : JValue → Bool
  | .null => false
  | .bool b => b
  | .num n => n != 0
  | .str s => s != ""
  | .arr _ => true
  | .obj _ => true

/-- Escaping of one character as done by `JSON.stringify` (quote,
backslash and the common control characters; other characters are emitted
verbatim). -/
def escapeJsonChar (c : Char) : String :=
  if c = '"' then "\\\""
  else if c = '\\' then "\\\\"
  else if c = '\n' then "\\n"
  else if c = '\t' then "\\t"
  else if c = '\r' then "\\r"
  else String.singleton c

mutual

/-- Embedding of `JSON.stringify` on the value shapes produced by the
query generator. -/
def jsonStringify : JValue → String
  | .null => "null"
  | .bool b => if b then "true" else "false"
  | .num n => toString n
  | .str s => "\"" ++ String.join (s.data.map escapeJsonChar) ++ "\""
  | .arr xs => "[" ++ jsonStringifyList xs ++ "]"
  | .obj kvs => "\x7b" ++ jsonStringifyEntries kvs ++ "\x7d"

def jsonStringifyList : List JValue → String
  | [] => ""
  | [v] => jsonStringify v
  | v :: rest => jsonStringify v ++ "," ++ jsonStringifyList rest

def jsonStringifyEntries : List (String × JValue) → String
  | [] => ""
  | [(k, v)] => "\"" ++ String.join (k.data.map escapeJsonChar) ++ "\":" ++ jsonStringify v
  | (k, v) :: rest =>
      "\"" ++ String.join (k.data.map escapeJsonChar) ++ "\":" ++ jsonStringify v
        ++ "," ++ jsonStringifyEntries rest

end

/-- Is `needle` a prefix of `hay`? (character lists) -/
def listIsPrefix : List Char → List Char → Bool
  | [], _ => true
  | _ :: _, [] => false
  | n :: ns, h :: hs => n == h && listIsPrefix ns hs

/-- Does `needle` occur as a contiguous run inside `hay`? -/
def listContainsSub (needle : List Char) : List Char → Bool
  | [] => listIsPrefix needle []
  | hay@(_ :: rest) => listIsPrefix needle hay || listContainsSub needle rest

/-- `hay.includes(needle)`: substring containment. -/
def containsTok (hay needle : String) : Bool :=
  listContainsSub needle.data hay.data

/-- ASCII lowercasing (`String.prototype.toLowerCase` on the ASCII text
this service handles). -/
def asciiLower (s : String) : String := String.mk (s.data.map Char.toLower)

/-! ## Field and collection schemas (`src/types`, as consumed by the
schema service and the query generator) -/

/-- Raw BSON-ish document values as sampled from a connected database:
the JS dynamic values walked by the schema extractor (`null`,
`undefined`, primitives, `Date`s, arrays, and plain objects as ordered
key/value lists). -/
inductive BVal where
  | null
  | undef
  | bool (b : Bool)
  | num (n : Int)
  | str (s : String)
  | date (t : Nat)
  | arr (elems : List BVal)
  | obj (entries : List (String × BVal))
deriving Repr

/-- JS truthiness of a raw document value. -/
def truthyB : BVal → Bool
  | .null => false
  | .undef => false
  | .bool b => b
  | .num n => n != 0
  | .str s => s != ""
  | .date _ => true
  | .arr _ => true
  | .obj _ => true

/-- One observed field (`FieldSchema` in `src/types`).  The source also
declares `enumValues` and `nestedSchema`, which the analysed code always
leaves `undefined`; they are omitted here. -/
structure FieldSchema where
  name : String
  type : String
  required : Bool
  isArray : Bool
  isNested : Bool
  sampleValues : List BVal := []
deriving Repr

/-- `CollectionSchema`: collection name and its ordered field list (index
metadata, document count and the sample document are carried by the source
record but never read by the operations verified here). -/
structure CollectionSchema where
  name : String
  fields : List FieldSchema
deriving Repr

/-- The schema snapshot consumed by the query generator
(`schemaCache.collections`). -/
structure SchemaCache where
  collections : List CollectionSchema
deriving Repr

/-! ## Query generator (`src/services/query-generator.service.ts`) -/

/-- `QueryIntent`.  `filters` is the open-ended `Record<string, any>`
embedded as an ordered association list; optional members are `Option`s
(`none` = JS `undefined`). -/
structure QueryIntent where
  type : String
  collection : Option String
  collections : List String := []
  filters : Option (List (String × JValue)) := none
  fields : Option (List String) := none
  aggregationStage : Option String := none
  limit : Option Nat := none
  confidence : Rat := 0
  explanation : String := ""

/-- `options` object attached to a compiled find query. -/
structure FindOptions where
  projection : Option (List (String × Nat))
  limit : Option Nat
deriving Repr

/-- `GeneratedQuery` (the compiled query).  The aggregate branch of the
source never assigns `query`, so `query` is an `Option`. -/
structure GeneratedQuery where
  type : String
  collection : String
  query : Option JValue
  pipeline : Option (List JValue)
  options : Option FindOptions
  isValid : Bool
  validationErrors : List String
deriving Repr

/-- `generateCountQuery`: the filters verbatim as the count's query. -/
def generateCountQuery (intent : QueryIntent) (collection : CollectionSchema) :
    GeneratedQuery :=
  { type := "count"
    collection := collection.name
    query := some (.obj (intent.filters.getD []))
    pipeline := none
    options := none
    isValid := true
    validationErrors := [] }

/-- `generateFindQuery`: filters as the query; projection either from the
explicitly requested fields or, by default, the first 8 fields whose type
is neither `Buffer` nor `Binary` and whose name is not `_id`; limit from
the intent when truthy, else 10. -/
def generateFindQuery (intent : QueryIntent) (collection : CollectionSchema) :
    GeneratedQuery :=
  let query := JValue.obj (intent.filters.getD [])
  let explicitFields : List String :=
    match intent.fields with
    | some fs => fs
    | none => []
  let projection : Option (List (String × Nat)) :=
    if explicitFields.length > 0 then
      some (explicitFields.map (fun f => (f, 1)))
    else
      let dflt := (collection.fields.filter (fun f =>
        f.type != "Buffer" && f.type != "Binary" && f.name != "_id")).take 8
      if dflt.length > 0 then some (dflt.map (fun f => (f.name, 1))) else none
  let lim : Nat :=
    match intent.limit with
    | some n => if n != 0 then n else 10
    | none => 10
  { type := "find"
    collection := collection.name
    query := some query
    pipeline := none
    options := some { projection := projection, limit := some lim }
    isValid := true
    validationErrors := [] }

/-- Auxiliary word/space character classes of the JS regexes (`\w`, `\s`),
restricted to their ASCII behaviour. -/
def isWordChar (c : Char) : Bool := c.isAlpha || c.isDigit || c == '_'

def isSpaceJS (c : Char) : Bool :=
  c == ' ' || c == '\t' || c == '\n' || c == '\r' || c == '\x0b' || c == '\x0c'

/-- Backtracking regex abstract syntax, covering the constructs used by
the patterns of the query generator (character classes, concatenation,
ordered alternation, greedy `+`, `*`, `?`, and capturing groups). -/
inductive RE where
  | eps
  | cls (p : Char → Bool)
  | cat (a b : RE)
  | alt (a b : RE)
  | star (a : RE)
  | plus (a : RE)
  | opt (a : RE)
  | group (a : RE)

/-- All ways `re` can match a prefix of `s`, in backtracking preference
order (greedy quantifiers, left-biased alternation); each result is the
remaining suffix together with the captured group strings in group order.
`fuel` bounds the recursion depth (an empty `star` iteration is never
retried, exactly as in the JS engine); callers supply fuel ample for the
pattern and input at hand. -/
def matchRE : Nat → RE → List Char → List (List Char × List String)
  | 0, _, _ => []
  | fuel+1, re, s =>
    match re with
    | .eps => [(s, [])]
    | .cls p =>
        match s with
        | [] => []
        | c :: rest => if p c then [(rest, [])] else []
    | .cat a b =>
        (matchRE fuel a s).flatMap fun pr =>
          (matchRE fuel b pr.1).map fun qr => (qr.1, pr.2 ++ qr.2)
    | .alt a b => matchRE fuel a s ++ matchRE fuel b s
    | .star a =>
        ((matchRE fuel a s).flatMap fun pr =>
          if pr.1.length < s.length then
            (matchRE fuel (.star a) pr.1).map fun qr => (qr.1, pr.2 ++ qr.2)
          else [])
          ++ [(s, [])]
    | .plus a =>
        (matchRE fuel a s).flatMap fun pr =>
          if pr.1.length < s.length then
            (matchRE fuel (.star a) pr.1).map fun qr => (qr.1, pr.2 ++ qr.2)
          else [(pr.1, pr.2)]
    | .opt a => matchRE fuel a s ++ [(s, [])]
    | .group a =>
        (matchRE fuel a s).map fun pr =>
          (pr.1, String.mk (s.take (s.length - pr.1.length)) :: pr.2)

/-- Recursion-depth fuel ample for matching `re` against `s` (each
quantifier iteration consumes at least one character under the
no-empty-iteration rule above). -/
def fuelFor (re : RE) (s : List Char) : Nat :=
  let rec size : RE → Nat
    | .eps => 1
    | .cls _ => 1
    | .cat a b => 1 + size a + size b
    | .alt a b => 1 + size a + size b
    | .star a => 1 + size a
    | .plus a => 2 + 2 * size a
    | .opt a => 1 + size a
    | .group a => 1 + size a
  (s.length + 2) * (size re + 2)

/-- Leftmost match: try the pattern at each successive start position and
return the preferred match's captures and the suffix after the match. -/
def findFirstRE (re : RE) : List Char → Option (List String × List Char)
  | [] =>
      match (matchRE (fuelFor re []) re []).head? with
      | some pr => some (pr.2, pr.1)
      | none => none
  | s@(_ :: rest) =>
      match (matchRE (fuelFor re s) re s).head? with
      | some pr => some (pr.2, pr.1)
      | none => findFirstRE re rest

/-- Repeated `exec` of a global regex: collect the captures of each
successive leftmost match, resuming after the end of the previous match. -/
def execAllRE (re : RE) : Nat → List Char → List (List String)
  | 0, _ => []
  | fuel+1, s =>
      match findFirstRE re s with
      | some (caps, rest) => caps :: execAllRE re fuel rest
      | none => []

/-- Case-insensitive literal character (the `i` flag; `c` is given in
lowercase). -/
def reLitCI (c : Char) : RE := .cls (fun x => x.toLower == c)

/-- Case-insensitive literal string. -/
def reStrCI (s : String) : RE := s.data.foldr (fun c r => .cat (reLitCI c) r) .eps

/-- Exact literal character. -/
def reLit (c : Char) : RE := .cls (fun x => x == c)

/-- A value character of the filter patterns: `[^\s,]`. -/
def reValChar : RE := .cls (fun c => !isSpaceJS c && c != ',')

/-- `/where\s+(\w+)\s+(?:is|equals?|=)\s+([^\s,]+)/gi` -/
def wherePattern : RE :=
  .cat (reStrCI "where") (.cat (.plus (.cls isSpaceJS))
    (.cat (.group (.plus (.cls isWordChar)))
      (.cat (.plus (.cls isSpaceJS))
        (.cat (.alt (reStrCI "is") (.alt (.cat (reStrCI "equal") (.opt (reLitCI 's'))) (reLit '=')))
          (.cat (.plus (.cls isSpaceJS)) (.group (.plus reValChar)))))))

/-- `/(\w+)\s*[:=]\s*([^\s,]+)/g` -/
def eqPattern : RE :=
  .cat (.group (.plus (.cls isWordChar)))
    (.cat (.star (.cls isSpaceJS))
      (.cat (.cls (fun c => c == ':' || c == '='))
        (.cat (.star (.cls isSpaceJS)) (.group (.plus reValChar)))))

/-- `Number(v)` restricted to optional-sign decimal numerals; returns the
value when it is integral (`"12"`, `"-3"`, `"4.0"`), `none` when `v` is not
a numeral or not integral.  Non-integral numerals are left as strings by
`parseFilterValue`, which preserves JS truthiness (only `0` is falsy). -/
def jsIntNumber (v : String) : Option Int :=
  let digitsToNat (ds : List Char) : Nat :=
    ds.foldl (fun acc c => acc * 10 + (c.toNat - '0'.toNat)) 0
  let core (ds : List Char) : Option Nat :=
    match ds.span (· != '.') with
    | (intPart, fracPart) =>
      if intPart.all Char.isDigit && !intPart.isEmpty then
        match fracPart with
        | [] => some (digitsToNat intPart)
        | _ :: frac => if frac.all (· == '0') then some (digitsToNat intPart) else none
      else none
  match v.data with
  | '-' :: rest => (core rest).map (fun n => -(n : Int))
  | ds => (core ds).map (fun n => (n : Int))

/-- Value coercion of the filter extractor: `"true"`/`"false"` become
booleans, numerals become numbers, anything else stays a string. -/
def parseFilterValue (v : String) : JValue :=
  if asciiLower v == "true" then .bool true
  else if asciiLower v == "false" then .bool false
  else
    match jsIntNumber v with
    | some n => .num n
    | none => .str v

/-- `filters[fieldName] = parsedValue`: overwrite in place when the key
exists, append otherwise (JS object insertion-order semantics). -/
def setFilter (k : String) (v : JValue) (fs : List (String × JValue)) :
    List (String × JValue) :=
  if fs.any (fun p => p.1 == k) then
    fs.map (fun p => if p.1 == k then (p.1, v) else p)
  else fs ++ [(k, v)]

/-- First-match association lookup (JS property read on a plain object). -/
def lookupFilter (k : String) : List (String × JValue) → Option JValue
  | [] => none
  | (k', v) :: rest => if k' = k then some v else lookupFilter k rest

/-- The first (`where <field> is|equals|= <value>`) pass of
`extractFilters`, folding every match into the filter object. -/
def whereFilterPass (message : String) : List (String × JValue) :=
  (execAllRE wherePattern (message.length + 1) message.data).foldl
    (fun acc caps =>
      match caps with
      | [f, v] => setFilter f (parseFilterValue v) acc
      | _ => acc) []

/-- One step of the generic `field[:=]value` pass: assign only when the
current value of the field is falsy (`!filters[fieldName]`). -/
def eqPassStep (acc : List (String × JValue)) (caps : List String) :
    List (String × JValue) :=
  match caps with
  | [f, v] =>
      match lookupFilter f acc with
      | some cur => if truthyJ cur then acc else setFilter f (parseFilterValue v) acc
      | none => setFilter f (parseFilterValue v) acc
  | _ => acc

/-- `extractFilters`: the `where` pass, then the generic `field[:=]value`
pass folded over its matches. -/
def extractFilters (message : String) : List (String × JValue) :=
  (execAllRE eqPattern (message.length + 1) message.data).foldl
    eqPassStep (whereFilterPass message)

/-- `parseAggregationStage`: first match of `/group\s+by\s+(\w+)/i`
produces the `$group` stage `{_id: "$<field>", count: {$sum: 1}}`. -/
def parseAggregationStage (stage : String) : Option JValue :=
  let groupByRE : RE :=
    .cat (reStrCI "group") (.cat (.plus (.cls isSpaceJS))
      (.cat (reStrCI "by") (.cat (.plus (.cls isSpaceJS)) (.group (.plus (.cls isWordChar))))))
  match findFirstRE groupByRE stage.data with
  | some ([f], _) => some (.obj [("$group", .obj [("_id", .str ("$" ++ f)),
      ("count", .obj [("$sum", .num 1)])])])
  | _ => none

/-- `generateAggregateQuery`: `$match` when filters are non-empty, the
parsed group stage when an aggregation stage string is present (truthy),
then `$limit` (intent limit when truthy, else 100).  The source never
assigns `query` in this branch. -/
def generateAggregateQuery (intent : QueryIntent) (collection : CollectionSchema) :
    GeneratedQuery :=
  let matchStage : List JValue :=
    match intent.filters with
    | some fs => if fs.length > 0 then [.obj [("$match", .obj fs)]] else []
    | none => []
  let groupStage : List JValue :=
    match intent.aggregationStage with
    | some st =>
        if st != "" then
          match parseAggregationStage st with
          | some g => [g]
          | none => []
        else []
    | none => []
  let limStage : List JValue :=
    [.obj [("$limit", .num (match intent.limit with
      | some n => if n != 0 then (n : Int) else 100
      | none => 100))]]
  { type := "aggregate"
    collection := collection.name
    query := none
    pipeline := some (matchStage ++ groupStage ++ limStage)
    options := none
    isValid := true
    validationErrors := [] }

/-- The six update-operator tokens screened in the serialized filter. -/
def hasUpdateToken (s : String) : Bool :=
  ["$set", "$unset", "$push", "$pull", "$inc", "$rename"].any (containsTok s)

/-- The four tokens screened in the serialized pipeline. -/
def hasPipelineToken (s : String) : Bool :=
  ["$out", "$merge", "$set", "$unset"].any (containsTok s)

/-- `validateQuery`: the safety gate.  Rejects a type outside the three
read-only kinds, a truthy `query` whose serialization contains an update
operator, and a pipeline whose serialization contains `$out`, `$merge`,
`$set` or `$unset`.  Returns `(isValid, errors)`. -/
def validateQuery (q : GeneratedQuery) : Bool × List String :=
  let e1 : List String :=
    if !(["count", "find", "aggregate"].contains q.type) then
      ["Query type " ++ q.type ++ " is not allowed"]
    else []
  let e2 : List String :=
    match q.query with
    | some v =>
        if truthyJ v && hasUpdateToken (jsonStringify v) then
          ["Write operations are not allowed"]
        else []
    | none => []
  let e3 : List String :=
    match q.pipeline with
    | some pl =>
        if hasPipelineToken (jsonStringify (.arr pl)) then
          ["Write operations in pipeline are not allowed"]
        else []
    | none => []
  let errors := e1 ++ e2 ++ e3
  (errors.isEmpty, errors)

/-- `generateQuery` (the compiler `compile()`): requires a truthy
`intent.collection` that resolves in the snapshot, dispatches on the
intent type (unknown types compile as `find`), then applies the
validation gate to the result. -/
def generateQuery (intent : QueryIntent) (schemaCache : SchemaCache) : GeneratedQuery :=
  let missing : GeneratedQuery :=
    { type := "find", collection := "", query := some (.obj []), pipeline := none
      options := none, isValid := false
      validationErrors := ["No collection specified in query"] }
  match intent.collection with
  | none => missing
  | some nm =>
    if nm = "" then missing
    else
      match schemaCache.collections.find? (fun c => c.name = nm) with
      | none =>
          { type := "find", collection := nm, query := some (.obj []), pipeline := none
            options := none, isValid := false
            validationErrors := ["Collection " ++ nm ++ " not found in schema"] }
      | some c =>
          let g :=
            match intent.type with
            | "count" => generateCountQuery intent c
            | "find" => generateFindQuery intent c
            | "aggregate" => generateAggregateQuery intent c
            | _ => generateFindQuery intent c
          let v := validateQuery g
          { g with isValid := v.1, validationErrors := v.2 }

/-- `calculateConfidence`: base 0.5, +0.3 for a mentioned collection,
+0.15 for extracted filters, +0.15 for a non-`general` type, then the
find-with-collection boost `min (c + 0.2) 1`, and a final clamp to 1. -/
def calculateConfidence (type : String) (collections : List String)
    (filters : List (String × JValue)) : Rat :=
  let c0 : Rat := 0.5
  let c1 := if collections.length > 0 then c0 + 0.3 else c0
  let c2 := if filters.length > 0 then c1 + 0.15 else c1
  let c3 := if type ≠ "general" then c2 + 0.15 else c2
  let c4 := if type = "find" ∧ collections.length > 0 then min (c3 + 0.2) 1 else c3
  min c4 1

/-! ## Theorems: the validation gate (claims about `validateQuery` and
`generateQuery`) -/

/-- Whether the serialized `query` member trips the filter screen. -/
def queryScreenTrips (q : GeneratedQuery) : Bool :=
  match q.query with
  | some v => truthyJ v && hasUpdateToken (jsonStringify v)
  | none => false

/-- Whether the serialized pipeline trips the pipeline screen. -/
def pipelineScreenTrips (q : GeneratedQuery) : Bool :=
  match q.pipeline with
  | some pl => hasPipelineToken (jsonStringify (.arr pl))
  | none => false

/-- C1 (amended): the validation gate accepts a compiled query exactly when
its type is one of the three read-only kinds, the serialized filter (when
present and truthy) contains none of `$set $unset $push $pull $inc
$rename`, and the serialized pipeline (when present) contains none of
`$out $merge $set $unset`.  The pipeline is not screened for `$push`,
`$pull`, `$inc` or `$rename`. -/
theorem validateQuery_isValid_characterization (q : GeneratedQuery) :
    (validateQuery q).1 =
      (["count", "find", "aggregate"].contains q.type
        && !queryScreenTrips q && !pipelineScreenTrips q) := by
  unfold validateQuery queryScreenTrips pipelineScreenTrips
  cases hq : q.query with
  | none =>
    cases hp : q.pipeline with
    | none =>
        by_cases h1 : (["count", "find", "aggregate"].contains q.type) = true <;> simp_all
    | some pl =>
        by_cases h1 : (["count", "find", "aggregate"].contains q.type) = true <;>
          by_cases h3 : hasPipelineToken (jsonStringify (.arr pl)) = true <;> simp_all
  | some v =>
    cases hp : q.pipeline with
    | none =>
        by_cases h1 : (["count", "find", "aggregate"].contains q.type) = true <;>
          by_cases h2a : truthyJ v = true <;>
            by_cases h2b : hasUpdateToken (jsonStringify v) = true <;> simp_all
    | some pl =>
        by_cases h1 : (["count", "find", "aggregate"].contains q.type) = true <;>
          by_cases h2a : truthyJ v = true <;>
            by_cases h2b : hasUpdateToken (jsonStringify v) = true <;>
              by_cases h3 : hasPipelineToken (jsonStringify (.arr pl)) = true <;> simp_all

/-- C1 (counterexample): a compiled aggregate whose pipeline literally
contains the `$push` token passes the gate (`isValid = true`), because the
pipeline screen only looks for `$out`, `$merge`, `$set` and `$unset` —
refuting the claim that a pipeline containing `$push`, `$pull`, `$inc` or
`$rename` is rejected. -/
theorem validateQuery_pipeline_push_accepted :
    (generateQuery
        { type := "aggregate", collection := some "users"
          filters := some [("$push", .str "x")] }
        { collections := [{ name := "users", fields := [] }] }).isValid = true
    ∧ containsTok
        (jsonStringify (.arr ((generateQuery
          { type := "aggregate", collection := some "users"
            filters := some [("$push", .str "x")] }
          { collections := [{ name := "users", fields := [] }] }).pipeline.getD [])))
        "$push" = true := by
  constructor <;> rfl

/-- C2 (counterexample): an intent whose filters carry `$set` purely as a
string *value* (`{status: "$set"}`) is nevertheless rejected — the gate
screens the `JSON.stringify` serialization, which includes values —
refuting the claim that value-only occurrences pass validation. -/
theorem validateQuery_value_token_rejected :
    (generateQuery
        { type := "count", collection := some "users"
          filters := some [("status", .str "$set")] }
        { collections := [{ name := "users", fields := [] }] }).isValid = false
    ∧ (generateQuery
        { type := "count", collection := some "users"
          filters := some [("status", .str "$set")] }
        { collections := [{ name := "users", fields := [] }] }).validationErrors
      = ["Write operations are not allowed"] := by
  constructor <;> rfl

/-- C2 (amended): for a count intent over an existing collection, the
compiled query is valid exactly when the JSON serialization of its filters
— operator keys and string values alike — contains none of the six
update-operator tokens. -/
theorem generateQuery_count_isValid_iff_no_write_token
    (intent : QueryIntent) (schema : SchemaCache) (nm : String) (c : CollectionSchema)
    (hty : intent.type = "count")
    (hcol : intent.collection = some nm) (hne : nm ≠ "")
    (hfind : schema.collections.find? (fun c' => c'.name = nm) = some c) :
    (generateQuery intent schema).isValid
      = !hasUpdateToken (jsonStringify (.obj (intent.filters.getD []))) := by
  unfold generateQuery
  rw [hcol]
  simp only [hne, if_false, hfind, hty]
  unfold generateCountQuery validateQuery
  by_cases h : hasUpdateToken (jsonStringify (.obj (intent.filters.getD []))) = true <;>
    simp_all [truthyJ]

theorem generateQuery_count_isValid_iff_no_write_token_witness :
    (generateQuery
        { type := "count", collection := some "users"
          filters := some [("age", .num 30)] }
        { collections := [{ name := "users", fields := [] }] }).isValid
      = !hasUpdateToken (jsonStringify (.obj [("age", .num 30)])) :=
  generateQuery_count_isValid_iff_no_write_token
    { type := "count", collection := some "users", filters := some [("age", .num 30)] }
    { collections := [{ name := "users", fields := [] }] }
    "users" { name := "users", fields := [] }
    rfl rfl (by decide) rfl

/-- C8 (confirmed): when the intent has no truthy collection, or its
collection does not resolve in the snapshot, `compile()` returns an
invalid result with a non-empty error list and no query body (an empty
query object and no pipeline). -/
theorem generateQuery_missing_collection_invalid
    (intent : QueryIntent) (schema : SchemaCache)
    (h : intent.collection = none ∨ intent.collection = some "" ∨
         ∃ nm, intent.collection = some nm ∧
           schema.collections.find? (fun c => c.name = nm) = none) :
    (generateQuery intent schema).isValid = false ∧
    (generateQuery intent schema).validationErrors ≠ [] ∧
    (generateQuery intent schema).query = some (.obj []) ∧
    (generateQuery intent schema).pipeline = none := by
  rcases h with h | h | ⟨nm, h1, h2⟩
  · simp [generateQuery, h]
  · simp [generateQuery, h]
  · by_cases hne : nm = ""
    · subst hne; simp [generateQuery, h1]
    · simp [generateQuery, h1, hne, h2]

theorem generateQuery_missing_collection_invalid_witness :
    (generateQuery { type := "find", collection := some "ghosts" }
        { collections := [{ name := "users", fields := [] }] }).isValid = false ∧
    (generateQuery { type := "find", collection := some "ghosts" }
        { collections := [{ name := "users", fields := [] }] }).validationErrors ≠ [] ∧
    (generateQuery { type := "find", collection := some "ghosts" }
        { collections := [{ name := "users", fields := [] }] }).query = some (.obj []) ∧
    (generateQuery { type := "find", collection := some "ghosts" }
        { collections := [{ name := "users", fields := [] }] }).pipeline = none :=
  generateQuery_missing_collection_invalid
    { type := "find", collection := some "ghosts" }
    { collections := [{ name := "users", fields := [] }] }
    (Or.inr (Or.inr ⟨"ghosts", rfl, rfl⟩))

/-- C5 (counterexample): with schema `items{_id: objectId, a: mixed}`, a
find intent with no requested fields and `limit = 0` compiles to a default
projection that *includes* the `mixed`-typed field `a`, and to
`options.limit = 10` although the intent's limit (0) is present — refuting
both the mixed-exclusion and the limit clause of the claim. -/
theorem generateFindQuery_mixed_included_and_zero_limit_default :
    (generateQuery
        { type := "find", collection := some "items", limit := some 0 }
        { collections :=
            [{ name := "items",
               fields := [{ name := "_id", type := "objectId", required := true,
                            isArray := false, isNested := false },
                          { name := "a", type := "mixed", required := true,
                            isArray := false, isNested := false }] }] }).options
      = some { projection := some [("a", 1)], limit := some 10 } := by
  rfl

/-- C5 (amended): with no explicitly requested fields, the default
projection is exactly the first 8 fields whose type is neither `Buffer`
nor `Binary` and whose name is not `_id` (fields of type `mixed` are *not*
excluded), omitted entirely when that list is empty; `options.limit` is
the intent's limit when present and non-zero, else 10. -/
theorem generateFindQuery_default_projection_and_limit
    (intent : QueryIntent) (c : CollectionSchema)
    (hfields : intent.fields.getD [] = []) :
    (generateFindQuery intent c).options =
      some { projection :=
              (if ((c.fields.filter (fun f =>
                    f.type != "Buffer" && f.type != "Binary" && f.name != "_id")).take 8).length > 0
               then some (((c.fields.filter (fun f =>
                    f.type != "Buffer" && f.type != "Binary" && f.name != "_id")).take 8).map
                      (fun f => (f.name, 1)))
               else none)
             limit := some (match intent.limit with
                            | some n => if n != 0 then n else 10
                            | none => 10) } ∧
    ((c.fields.filter (fun f =>
        f.type != "Buffer" && f.type != "Binary" && f.name != "_id")).take 8).length ≤ 8 ∧
    ∀ f ∈ (c.fields.filter (fun f =>
        f.type != "Buffer" && f.type != "Binary" && f.name != "_id")).take 8,
      f ∈ c.fields ∧ f.type ≠ "Buffer" ∧ f.type ≠ "Binary" ∧ f.name ≠ "_id" := by
  refine ⟨?_, ?_, ?_⟩
  · unfold generateFindQuery
    cases hf : intent.fields with
    | none => simp
    | some fs =>
        have : fs = [] := by simpa [hf] using hfields
        subst this; simp
  · exact List.length_take_le 8 _
  · intro f hf
    have hmem := List.mem_of_mem_take hf
    have h1 := List.mem_filter.mp hmem
    refine ⟨h1.1, ?_, ?_, ?_⟩ <;>
      · have := h1.2
        simp only [Bool.and_eq_true, bne_iff_ne, ne_eq] at this
        tauto

theorem generateFindQuery_default_projection_and_limit_witness :
    (generateFindQuery
        { type := "find", collection := some "items", limit := some 7 }
        { name := "items",
          fields := [{ name := "_id", type := "objectId", required := true,
                       isArray := false, isNested := false },
                     { name := "a", type := "string", required := true,
                       isArray := false, isNested := false }] }).options =
      some { projection := some [("a", 1)], limit := some 7 } := by
  have h := generateFindQuery_default_projection_and_limit
    { type := "find", collection := some "items", limit := some 7 }
    { name := "items",
      fields := [{ name := "_id", type := "objectId", required := true,
                   isArray := false, isNested := false },
                 { name := "a", type := "string", required := true,
                   isArray := false, isNested := false }] }
    rfl
  rw [h.1]; rfl

/-! ## Theorems: filter extraction (C4) -/

/-- In-place replacement of key `g` does not change the binding of
`f ≠ g`. -/
lemma lookupFilter_map_set_ne (g f : String) (w : JValue) (h : g ≠ f) :
    ∀ acc, lookupFilter f (acc.map (fun p => if p.1 == g then (p.1, w) else p))
      = lookupFilter f acc := by
  intro acc
  induction acc with
  | nil => rfl
  | cons p rest ih =>
      obtain ⟨k, x⟩ := p
      by_cases hk : (k == g) = true
      · have hkg : k = g := by simpa using hk
        subst hkg
        simp only [List.map_cons, hk, if_true]
        unfold lookupFilter
        rw [if_neg h, if_neg h]
        exact ih
      · have hk' : (k == g) = false := by simpa using hk
        simp only [List.map_cons, hk', Bool.false_eq_true, if_false]
        unfold lookupFilter
        by_cases hkf : k = f
        · rw [if_pos hkf, if_pos hkf]
        · rw [if_neg hkf, if_neg hkf]; exact ih

/-- Appending a binding for key `g` does not change the binding of
`f ≠ g`. -/
lemma lookupFilter_append_ne (g f : String) (w : JValue) (h : g ≠ f) :
    ∀ acc, lookupFilter f (acc ++ [(g, w)]) = lookupFilter f acc := by
  intro acc
  induction acc with
  | nil =>
      rw [List.nil_append]
      unfold lookupFilter
      rw [if_neg h]
      rfl
  | cons p rest ih =>
      obtain ⟨k, x⟩ := p
      rw [List.cons_append]
      unfold lookupFilter
      by_cases hkf : k = f
      · rw [if_pos hkf, if_pos hkf]
      · rw [if_neg hkf, if_neg hkf]; exact ih

/-- Setting a key `g ≠ f` (in place or appended) does not change the
binding of `f`. -/
lemma lookupFilter_setFilter_ne (g f : String) (w : JValue)
    (acc : List (String × JValue)) (h : g ≠ f) :
    lookupFilter f (setFilter g w acc) = lookupFilter f acc := by
  unfold setFilter
  split
  · exact lookupFilter_map_set_ne g f w h acc
  · exact lookupFilter_append_ne g f w h acc

/-- The generic pass never disturbs a truthy binding. -/
lemma eqPass_foldl_preserves (ms : List (List String)) (f : String) (v : JValue)
    (hv : truthyJ v = true) :
    ∀ acc, lookupFilter f acc = some v →
      lookupFilter f (ms.foldl eqPassStep acc) = some v := by
  induction ms with
  | nil => intro acc h; simpa using h
  | cons caps rest ih =>
      intro acc h
      rw [List.foldl_cons]
      apply ih
      match caps with
      | [] => simpa [eqPassStep] using h
      | [_] => simpa [eqPassStep] using h
      | _ :: _ :: _ :: _ => simpa [eqPassStep] using h
      | [g, w] =>
          simp only [eqPassStep]
          by_cases hgf : g = f
          · subst hgf
            rw [h]
            simp [hv, h]
          · cases hcur : lookupFilter g acc with
            | some cur =>
                show lookupFilter f (if truthyJ cur = true then acc
                  else setFilter g (parseFilterValue w) acc) = some v
                by_cases ht : truthyJ cur = true
                · rw [if_pos ht]; exact h
                · rw [if_neg ht, lookupFilter_setFilter_ne g f _ acc hgf]; exact h
            | none =>
                show lookupFilter f (setFilter g (parseFilterValue w) acc) = some v
                rw [lookupFilter_setFilter_ne g f _ acc hgf]
                exact h

/-- C4 (counterexample): in
`"where active is false, active: true"` the first (`where`) pass assigns
`active := false`, and the generic second pass *overwrites* it with `true`
because the guard `!filters[fieldName]` treats the stored `false` as
absent — refuting the claim that the generic pass never overwrites a field
set by the first pass, for every assigned value. -/
theorem extractFilters_false_value_overwritten :
    whereFilterPass "where active is false, active: true"
      = [("active", .bool false)] ∧
    extractFilters "where active is false, active: true"
      = [("active", .bool true)] :=
  ⟨rfl, rfl⟩

/-- C4 (amended): the two passes run in the stated order, and the generic
pass never overwrites a field whose current value is *truthy*; a field the
first pass set to `false`, `0` or `""` can be overwritten. -/
theorem extractFilters_truthy_binding_preserved
    (message : String) (f : String) (v : JValue)
    (hset : lookupFilter f (whereFilterPass message) = some v)
    (htruthy : truthyJ v = true) :
    lookupFilter f (extractFilters message) = some v := by
  unfold extractFilters
  exact eqPass_foldl_preserves _ f v htruthy _ hset

theorem extractFilters_truthy_binding_preserved_witness :
    truthyJ (.str "b") = true ∧
    lookupFilter "a" (extractFilters "where a is b") = some (.str "b") :=
  ⟨rfl, extractFilters_truthy_binding_preserved "where a is b" "a" (.str "b") rfl rfl⟩

/-! ## Theorems: confidence scoring (C7) -/

/-- Monotonicity of a nonnegative conditional bonus. -/
lemma ite_bonus_mono (p q : Prop) [Decidable p] [Decidable q] (x : Rat)
    (hx : 0 ≤ x) (hpq : p → q) :
    (if p then x else 0) ≤ (if q then x else 0) := by
  by_cases hp : p
  · simp [hp, hpq hp]
  · by_cases hq : q <;> simp [hp, hq, hx]

/-- A nonnegative conditional bonus is nonnegative. -/
lemma ite_bonus_nonneg (p : Prop) [Decidable p] (x : Rat) (hx : 0 ≤ x) :
    (0 : Rat) ≤ if p then x else 0 := by
  by_cases hp : p <;> simp [hp, hx]

/-- C7 (confirmed): the confidence score equals the clamped ordered sum
`min (0.5 + 0.3·[collection] + 0.15·[filters] + 0.15·[type ≠ general]
+ 0.2·[find ∧ collection]) 1`, always lies in `[0, 1]`, and is
monotonically non-decreasing in the satisfied bonus conditions. -/
theorem calculateConfidence_formula_bounds_monotone :
    (∀ (t : String) (cs : List String) (fs : List (String × JValue)),
      calculateConfidence t cs fs =
        min (0.5 + (if cs.length > 0 then (0.3 : Rat) else 0)
              + (if fs.length > 0 then (0.15 : Rat) else 0)
              + (if t ≠ "general" then (0.15 : Rat) else 0)
              + (if t = "find" ∧ cs.length > 0 then (0.2 : Rat) else 0)) 1
      ∧ 0 ≤ calculateConfidence t cs fs ∧ calculateConfidence t cs fs ≤ 1) ∧
    (∀ (t : String) (cs : List String) (fs : List (String × JValue))
       (t' : String) (cs' : List String) (fs' : List (String × JValue)),
      (cs.length > 0 → cs'.length > 0) →
      (fs.length > 0 → fs'.length > 0) →
      (t ≠ "general" → t' ≠ "general") →
      (t = "find" ∧ cs.length > 0 → t' = "find" ∧ cs'.length > 0) →
      calculateConfidence t cs fs ≤ calculateConfidence t' cs' fs') := by
  have formula : ∀ (t : String) (cs : List String) (fs : List (String × JValue)),
      calculateConfidence t cs fs =
        min (0.5 + (if cs.length > 0 then (0.3 : Rat) else 0)
              + (if fs.length > 0 then (0.15 : Rat) else 0)
              + (if t ≠ "general" then (0.15 : Rat) else 0)
              + (if t = "find" ∧ cs.length > 0 then (0.2 : Rat) else 0)) 1 := by
    intro t cs fs
    simp only [calculateConfidence]
    split_ifs <;> norm_num [min_def]
  have nonneg : ∀ (t : String) (cs : List String) (fs : List (String × JValue)),
      (0 : Rat) ≤ 0.5 + (if cs.length > 0 then (0.3 : Rat) else 0)
              + (if fs.length > 0 then (0.15 : Rat) else 0)
              + (if t ≠ "general" then (0.15 : Rat) else 0)
              + (if t = "find" ∧ cs.length > 0 then (0.2 : Rat) else 0) := by
    intro t cs fs
    have a1 := ite_bonus_nonneg (cs.length > 0) (0.3 : Rat) (by norm_num)
    have a2 := ite_bonus_nonneg (fs.length > 0) (0.15 : Rat) (by norm_num)
    have a3 := ite_bonus_nonneg (t ≠ "general") (0.15 : Rat) (by norm_num)
    have a4 := ite_bonus_nonneg (t = "find" ∧ cs.length > 0) (0.2 : Rat) (by norm_num)
    have h05 : (0 : Rat) ≤ 0.5 := by norm_num
    linarith
  constructor
  · intro t cs fs
    refine ⟨formula t cs fs, ?_, ?_⟩
    · rw [formula t cs fs]
      exact le_min (nonneg t cs fs) (by norm_num)
    · rw [formula t cs fs]
      exact min_le_right _ _
  · intro t cs fs t' cs' fs' m1 m2 m3 m4
    rw [formula t cs fs, formula t' cs' fs']
    refine min_le_min ?_ le_rfl
    have b1 := ite_bonus_mono (cs.length > 0) (cs'.length > 0) (0.3 : Rat) (by norm_num) m1
    have b2 := ite_bonus_mono (fs.length > 0) (fs'.length > 0) (0.15 : Rat) (by norm_num) m2
    have b3 := ite_bonus_mono (t ≠ "general") (t' ≠ "general") (0.15 : Rat) (by norm_num) m3
    have b4 := ite_bonus_mono (t = "find" ∧ cs.length > 0) (t' = "find" ∧ cs'.length > 0)
      (0.2 : Rat) (by norm_num) m4
    linarith

theorem calculateConfidence_formula_bounds_monotone_witness :
    calculateConfidence "count" ["users"] []
      ≤ calculateConfidence "find" ["users"] [("age", .num 30)] :=
  calculateConfidence_formula_bounds_monotone.2
    "count" ["users"] [] "find" ["users"] [("age", .num 30)]
    (fun h => h) (fun h => by simp at h) (fun _ => by decide)
    (fun h => by simp at h)

/-! ## Connection pool (`ConnectionPoolManager` in `src/models/ChatHistory.ts`) -/

/-- One pool entry: the underlying client (identified by a number), the
last-used wall-clock timestamp (ms) and the reference count.  `refCount`
is an integer because `releaseConnection` decrements without flooring. -/
structure PoolEntry where
  client : Nat
  lastUsed : Nat
  refCount : Int
deriving Repr, DecidableEq

/-- The pool map plus a counter supplying the identity of the next freshly
constructed `MongoClient`. -/
structure PoolState where
  pools : List (String × PoolEntry)
  nextClient : Nat
deriving Repr, DecidableEq

/-- `CONSTANTS.CACHE.CONNECTION_POOL_IDLE` (30 minutes, ms). -/
def CONNECTION_POOL_IDLE : Int := 30 * 60 * 1000

/-- Signed 32-bit wraparound (`x & x` / `<< 5` coercion in JS). -/
def toInt32 (x : Int) : Int :=
  let m := x % 4294967296
  if m ≥ 2147483648 then m - 4294967296 else m

/-- `hashConnectionString`: the JS string hash
`hash = ((hash << 5) - hash) + charCode`, coerced to int32 each round,
then `"pool_" + Math.abs(hash)`. -/
def hashConnectionString (s : String) : String :=
  "pool_" ++ toString
    (s.data.foldl (fun h c => toInt32 (toInt32 (h * 32) - h + (c.toNat : Int))) 0).natAbs

/-- First-match lookup in the pool map. -/
def lookupPool (k : String) : List (String × PoolEntry) → Option PoolEntry
  | [] => none
  | (k', e) :: rest => if k' = k then some e else lookupPool k rest

/-- In-place update of the entry at key `k` (JS mutation of the object
held in the `Map`). -/
def updatePool (k : String) (e : PoolEntry) (ps : List (String × PoolEntry)) :
    List (String × PoolEntry) :=
  ps.map (fun kv => if kv.1 = k then (kv.1, e) else kv)

/-- `getConnection`: reject an empty connection string; reuse an existing
entry (increment `refCount`, refresh `lastUsed`, return the same client);
otherwise connect a fresh client and insert it with `refCount = 1`.
Returns the client identity and the new state (the success path; a failed
connect propagates an error and caches nothing). -/
def getConnection (s : String) (now : Nat) (st : PoolState) :
    Except String (Nat × PoolState) :=
  if s = "" then .error "Connection string is required"
  else
    match lookupPool (hashConnectionString s) st.pools with
    | some e =>
        .ok (e.client,
          PoolState.mk
            (updatePool (hashConnectionString s)
              (PoolEntry.mk e.client now (e.refCount + 1)) st.pools)
            st.nextClient)
    | none =>
        .ok (st.nextClient,
          PoolState.mk
            (st.pools ++ [(hashConnectionString s, PoolEntry.mk st.nextClient now 1)])
            (st.nextClient + 1))

/-- `releaseConnection`: decrement `refCount` (no floor) and refresh
`lastUsed`; never closes the client; a miss is a no-op. -/
def releaseConnection (s : String) (now : Nat) (st : PoolState) : PoolState :=
  match lookupPool (hashConnectionString s) st.pools with
  | some e =>
      PoolState.mk
        (updatePool (hashConnectionString s)
          (PoolEntry.mk e.client now (e.refCount - 1)) st.pools)
        st.nextClient
  | none => st

/-- The sweep's retention test: an entry is dropped exactly when its idle
time exceeds the threshold and its reference count is exactly zero. -/
def entryKeep (now : Nat) (e : PoolEntry) : Bool :=
  if (now : Int) - (e.lastUsed : Int) > CONNECTION_POOL_IDLE ∧ e.refCount = 0
  then false else true

/-- One run of the periodic cleanup sweep: close and drop every entry
whose idle time exceeds the threshold *and* whose `refCount` is exactly
zero. -/
def cleanupSweep (now : Nat) (st : PoolState) : PoolState :=
  { st with pools := st.pools.filter (fun kv => entryKeep now kv.2) }

/-- `closeAll`: force-close everything and clear the pool. -/
def closeAll (st : PoolState) : PoolState := { st with pools := [] }

/-! ## Theorems: connection pool (C9, C10) -/

/-- Updating key `k` rewrites the binding of `k` (when present) and no
other binding. -/
lemma lookupPool_updatePool (k : String) (e : PoolEntry) :
    ∀ ps, lookupPool k (updatePool k e ps) = (lookupPool k ps).map (fun _ => e) := by
  intro ps
  induction ps with
  | nil => rfl
  | cons kv rest ih =>
      obtain ⟨k', e'⟩ := kv
      by_cases hk : k' = k
      · simp only [updatePool, List.map_cons, if_pos hk]
        unfold lookupPool
        rw [if_pos hk, if_pos hk]
        rfl
      · simp only [updatePool, List.map_cons, if_neg hk]
        unfold lookupPool
        rw [if_neg hk, if_neg hk]
        exact ih

/-- A lookup miss over an appended singleton resolves to the singleton. -/
lemma lookupPool_append (k : String) (e : PoolEntry) :
    ∀ ps, lookupPool k ps = none → lookupPool k (ps ++ [(k, e)]) = some e := by
  intro ps
  induction ps with
  | nil => intro _; unfold lookupPool; simp
  | cons kv rest ih =>
      obtain ⟨k', e'⟩ := kv
      intro h
      rw [List.cons_append]
      unfold lookupPool at h ⊢
      by_cases hk : k' = k
      · rw [if_pos hk] at h; exact absurd h (by simp)
      · rw [if_neg hk] at h ⊢
        exact ih h

/-- The sweep keeps (unchanged) every entry whose retention test holds; in
particular the first binding of a key is preserved whenever it is kept. -/
lemma lookupPool_filter_keep (now : Nat) (k : String) (e : PoolEntry)
    (hkeep : entryKeep now e = true) :
    ∀ ps, lookupPool k ps = some e →
      lookupPool k (ps.filter (fun kv => entryKeep now kv.2)) = some e := by
  intro ps
  induction ps with
  | nil => intro h; exact absurd h (by simp [lookupPool])
  | cons kv rest ih =>
      obtain ⟨k', e'⟩ := kv
      intro h
      unfold lookupPool at h
      by_cases hk : k' = k
      · rw [if_pos hk] at h
        injection h with he
        subst he
        rw [List.filter_cons_of_pos (by simpa using hkeep)]
        unfold lookupPool
        rw [if_pos hk]
      · rw [if_neg hk] at h
        by_cases hd : entryKeep now e' = true
        · rw [List.filter_cons_of_pos (by simpa using hd)]
          unfold lookupPool
          rw [if_neg hk]
          exact ih h
        · rw [List.filter_cons_of_neg (by simpa using hd)]
          exact ih h

/-- If a key's entry vanishes across one sweep, that entry failed the
retention test: it was idle past the threshold at reference count zero. -/
lemma cleanupSweep_evicts_only (now : Nat) (k : String) (e : PoolEntry) :
    ∀ ps, lookupPool k ps = some e →
      lookupPool k (ps.filter (fun kv => entryKeep now kv.2)) = none →
      (now : Int) - (e.lastUsed : Int) > CONNECTION_POOL_IDLE ∧ e.refCount = 0 := by
  intro ps h hnone
  by_cases hkeep : entryKeep now e = true
  · rw [lookupPool_filter_keep now k e hkeep ps h] at hnone
    exact absurd hnone (by simp)
  · unfold entryKeep at hkeep
    by_cases hc : (now : Int) - (e.lastUsed : Int) > CONNECTION_POOL_IDLE ∧ e.refCount = 0
    · exact hc
    · rw [if_neg hc] at hkeep
      exact absurd rfl hkeep

/-- C9 (confirmed): (a) two sequential acquires of the same connection
string against a pool with no entry for it return the same underlying
client and leave the reference count at 2; (b) a release decrements the
reference count, refreshes `lastUsed` and never closes or removes the
handle; (c) the sweep removes an entry only when its reference count is
exactly 0 and its idle time exceeds the threshold — an entry with nonzero
reference count always survives unchanged. -/
theorem connectionPool_acquire_release_sweep :
    (∀ (s : String) (t1 t2 : Nat) (st : PoolState) (c1 c2 : Nat) (st1 st2 : PoolState),
      s ≠ "" →
      lookupPool (hashConnectionString s) st.pools = none →
      getConnection s t1 st = .ok (c1, st1) →
      getConnection s t2 st1 = .ok (c2, st2) →
      c1 = c2 ∧
      (lookupPool (hashConnectionString s) st2.pools).map (fun e => e.refCount) = some 2) ∧
    (∀ (s : String) (now : Nat) (st : PoolState) (e : PoolEntry),
      lookupPool (hashConnectionString s) st.pools = some e →
      lookupPool (hashConnectionString s) (releaseConnection s now st).pools =
        some { e with refCount := e.refCount - 1, lastUsed := now }) ∧
    (∀ (now : Nat) (k : String) (e : PoolEntry) (st : PoolState),
      lookupPool k st.pools = some e →
      (lookupPool k (cleanupSweep now st).pools = none →
        ((now : Int) - (e.lastUsed : Int) > CONNECTION_POOL_IDLE ∧ e.refCount = 0)) ∧
      (e.refCount ≠ 0 → lookupPool k (cleanupSweep now st).pools = some e)) := by
  refine ⟨?_, ?_, ?_⟩
  · intro s t1 t2 st c1 c2 st1 st2 hs hmiss h1 h2
    rw [getConnection, if_neg hs, hmiss] at h1
    simp only [] at h1
    injection h1 with h1'
    have hc1 : c1 = st.nextClient := (congrArg Prod.fst h1').symm
    have hst1 : st1 = PoolState.mk
        (st.pools ++ [(hashConnectionString s, PoolEntry.mk st.nextClient t1 1)])
        (st.nextClient + 1) := (congrArg Prod.snd h1').symm
    have hfound : lookupPool (hashConnectionString s) st1.pools =
        some (PoolEntry.mk st.nextClient t1 1) := by
      rw [hst1]
      exact lookupPool_append _ _ _ hmiss
    rw [getConnection, if_neg hs, hfound] at h2
    simp only [] at h2
    injection h2 with h2'
    have hc2 : c2 = st.nextClient := (congrArg Prod.fst h2').symm
    have hst2 : st2 = PoolState.mk
        (updatePool (hashConnectionString s)
          (PoolEntry.mk st.nextClient t2 (1 + 1)) st1.pools)
        st1.nextClient := (congrArg Prod.snd h2').symm
    constructor
    · rw [hc1, hc2]
    · rw [hst2]
      simp only
      rw [lookupPool_updatePool, hfound]
      rfl
  · intro s now st e h
    rw [releaseConnection, h]
    simp only
    rw [lookupPool_updatePool, h]
    rfl
  · intro now k e st h
    constructor
    · intro hnone
      exact cleanupSweep_evicts_only now k e st.pools h hnone
    · intro hrc
      have hkeep : entryKeep now e = true := by
        unfold entryKeep
        rw [if_neg (fun hc => hrc hc.2)]
      exact lookupPool_filter_keep now k e hkeep st.pools h

set_option maxRecDepth 4096 in
theorem connectionPool_acquire_release_sweep_witness :
    getConnection "mdb" 5 (PoolState.mk [] 0)
      = .ok (0, PoolState.mk [(hashConnectionString "mdb", PoolEntry.mk 0 5 1)] 1) ∧
    getConnection "mdb" 9
        (PoolState.mk [(hashConnectionString "mdb", PoolEntry.mk 0 5 1)] 1)
      = .ok (0, PoolState.mk [(hashConnectionString "mdb", PoolEntry.mk 0 9 2)] 1) ∧
    (0 = 0 ∧
      (lookupPool (hashConnectionString "mdb")
        (PoolState.mk [(hashConnectionString "mdb", PoolEntry.mk 0 9 2)] 1).pools).map
        (fun e => e.refCount) = some 2) :=
  ⟨rfl, rfl,
    connectionPool_acquire_release_sweep.1 "mdb" 5 9
      (PoolState.mk [] 0) 0 0
      (PoolState.mk [(hashConnectionString "mdb", PoolEntry.mk 0 5 1)] 1)
      (PoolState.mk [(hashConnectionString "mdb", PoolEntry.mk 0 9 2)] 1)
      (by decide) rfl rfl rfl⟩

/-- C10 (confirmed, implicit claim): releasing more often than acquired
drives the reference count negative (release has no floor at zero); the
sweep's `refCount === 0` test then never matches, so the entry survives
every sweep — any sequence of sweeps at any times — and only `closeAll`
empties the pool. -/
theorem connectionPool_overrelease_negative_never_swept :
    (∀ (s : String) (now : Nat) (st : PoolState) (e : PoolEntry),
      lookupPool (hashConnectionString s) st.pools = some e →
      e.refCount ≤ 0 →
      (lookupPool (hashConnectionString s) (releaseConnection s now st).pools).map
          (fun e' => e'.refCount) = some (e.refCount - 1) ∧ e.refCount - 1 < 0) ∧
    (∀ (k : String) (e : PoolEntry) (st : PoolState),
      lookupPool k st.pools = some e →
      e.refCount < 0 →
      ∀ (times : List Nat),
        lookupPool k ((times.foldl (fun acc n => cleanupSweep n acc) st).pools) = some e) ∧
    (∀ st : PoolState, (closeAll st).pools = []) := by
  refine ⟨?_, ?_, ?_⟩
  · intro s now st e h hle
    constructor
    · rw [releaseConnection, h]
      simp only
      rw [lookupPool_updatePool, h]
      rfl
    · omega
  · intro k e st h hneg times
    induction times generalizing st with
    | nil => simpa using h
    | cons n rest ih =>
        rw [List.foldl_cons]
        apply ih
        have hkeep : entryKeep n e = true := by
          unfold entryKeep
          rw [if_neg (fun hc => by omega)]
        exact lookupPool_filter_keep n k e hkeep st.pools h
  · intro st; rfl

set_option maxRecDepth 4096 in
theorem connectionPool_overrelease_negative_never_swept_witness :
    (lookupPool (hashConnectionString "mdb")
        (releaseConnection "mdb" 7
          (PoolState.mk [(hashConnectionString "mdb", PoolEntry.mk 0 0 0)] 1)).pools).map
      (fun e' => e'.refCount) = some (-1) ∧
    lookupPool (hashConnectionString "mdb")
        ((([2000000, 4000000] : List Nat).foldl (fun acc n => cleanupSweep n acc)
          (PoolState.mk [(hashConnectionString "mdb", PoolEntry.mk 0 0 (-1))] 1)).pools)
      = some (PoolEntry.mk 0 0 (-1)) := by
  constructor
  · exact ((connectionPool_overrelease_negative_never_swept.1 "mdb" 7
      (PoolState.mk [(hashConnectionString "mdb", PoolEntry.mk 0 0 0)] 1)
      (PoolEntry.mk 0 0 0)
      (by unfold lookupPool; rw [if_pos rfl]) (by decide)).1)
  · exact connectionPool_overrelease_negative_never_swept.2.1
      (hashConnectionString "mdb")
      (PoolEntry.mk 0 0 (-1))
      (PoolState.mk [(hashConnectionString "mdb", PoolEntry.mk 0 0 (-1))] 1)
      (by unfold lookupPool; rw [if_pos rfl]) (by decide) [2000000, 4000000]

/-! ## Schema extractor (`SchemaService.analyzeFields` and helpers,
`src/unnamed/part_001`) -/

/-- JS property read on a plain object (`undefined` on a miss). -/
def jsGetEntry (k : String) : List (String × BVal) → BVal
  | [] => .undef
  | (k', v) :: rest => if k' = k then v else jsGetEntry k rest

/-- `getFieldType`: the fixed type-tag function.  An object is tagged
`objectId` when its `_id` member is truthy, `object` otherwise; otherwise
the tag follows the JS `typeof`/instance tests of the source. -/
def getFieldType : BVal → String
  | .null => "null"
  | .undef => "undefined"
  | .arr _ => "array"
  | .date _ => "date"
  | .obj kvs => if truthyB (jsGetEntry "_id" kvs) then "objectId" else "object"
  | .bool _ => "boolean"
  | .num _ => "number"
  | .str _ => "string"

/-- `createFieldSchema`: first sighting of a field.  `required` starts
true unless the first value is `null`/`undefined`; `isNested` mirrors the
source's plain-object test. -/
def createFieldSchema (name : String) (v : BVal) : FieldSchema :=
  { name := name
    type := getFieldType v
    required := match v with | .null => false | .undef => false | _ => true
    isArray := match v with | .arr _ => true | _ => false
    isNested := match v with | .obj _ => true | _ => false
    sampleValues := [] }

/-- `updateFieldSchema`: fold one more observed value into a field.
`required` degrades to false only on an explicit `null`/`undefined`
value; the type collapses to `mixed` on any conflict with a non-`null`
tag.  A document from which the field is absent never reaches this
function. -/
def updateFieldSchema (fs : FieldSchema) (v : BVal) : FieldSchema :=
  let fs1 := match v with
    | .null => { fs with required := false }
    | .undef => { fs with required := false }
    | _ => fs
  if fs1.type ≠ getFieldType v ∧ getFieldType v ≠ "null"
  then { fs1 with type := "mixed" } else fs1

/-- The insertion-ordered field map (`Map<string, FieldSchema>` keyed by
dotted field path). -/
def lookupFM (p : String) : List (String × FieldSchema) → Option FieldSchema
  | [] => none
  | (q, fs) :: rest => if q = p then some fs else lookupFM p rest

/-- In-place update of the map entry at `p` (JS `Map.set` on an existing
key keeps its insertion position). -/
def setFM (p : String) (fs : FieldSchema) (m : List (String × FieldSchema)) :
    List (String × FieldSchema) :=
  m.map (fun q => if q.1 = p then (q.1, fs) else q)

/-- Dotted path construction: `prefix ? prefix + "." + key : key`. -/
def jsPath (pfx k : String) : String := if pfx = "" then k else pfx ++ "." ++ k

/-- Processing of one document entry by `extractFieldsFromDocument`:
insert a fresh `FieldSchema` or update the existing one at the entry's
path, then walk into plain-object values (`child` is the call at the next
depth). -/
def extractStep (child : List (String × BVal) → String → List (String × FieldSchema) →
    List (String × FieldSchema))
    (k : String) (v : BVal) (pfx : String) (m : List (String × FieldSchema)) :
    List (String × FieldSchema) :=
  let path := jsPath pfx k
  let m1 := match lookupFM path m with
    | some fs => setFM path (updateFieldSchema fs v) m
    | none => m ++ [(path, createFieldSchema k v)]
  match v with
  | .obj kvs2 => child kvs2 path m1
  | _ => m1

/-- The entry loop of `extractFieldsFromDocument`, parameterized by the
procedure applied to nested objects. -/
def extractDocF (child : List (String × BVal) → String → List (String × FieldSchema) →
    List (String × FieldSchema)) :
    List (String × BVal) → String → List (String × FieldSchema) →
      List (String × FieldSchema)
  | [], _, m => m
  | (k, v) :: rest, pfx, m => extractDocF child rest pfx (extractStep child k v pfx m)

/-- `extractFieldsFromDocument` at depth 4: `depth > 3`, return
unchanged. -/
def extractDocDepth4 : List (String × BVal) → String → List (String × FieldSchema) →
    List (String × FieldSchema) := fun _ _ m => m

/-- `extractFieldsFromDocument` at depths 3, 2, 1 and 0 — the source's
depth-capped recursion (`if (depth > 3) return`), unrolled per depth so
the recursion is structural. -/
def extractDocDepth3 := extractDocF extractDocDepth4

def extractDocDepth2 := extractDocF extractDocDepth3

def extractDocDepth1 := extractDocF extractDocDepth2

def extractDocDepth0 := extractDocF extractDocDepth1

/-- The field map folded over all sampled documents
(`analyzeFields`'s first loop). -/
def analyzeFieldMap (samples : List (List (String × BVal))) :
    List (String × FieldSchema) :=
  samples.foldl (fun m doc => extractDocDepth0 doc "" m) []

/-- `path.split('.')` on character lists. -/
def splitOnDot : List Char → List (List Char)
  | [] => [[]]
  | c :: rest =>
      let r := splitOnDot rest
      if c = '.' then [] :: r
      else
        match r with
        | [] => [[c]]
        | y :: ys => (c :: y) :: ys

/-- `getNestedValue`: reduce over the dot-split path;
`current && current[key] !== undefined ? current[key] : undefined`
(property access on a non-object yields `undefined`). -/
def getNestedValue (doc : List (String × BVal)) (path : String) : BVal :=
  ((splitOnDot path.data).map (fun cs => String.mk cs)).foldl
    (fun cur k =>
      if truthyB cur then
        match cur with
        | .obj kvs => jsGetEntry k kvs
        | _ => .undef
      else .undef)
    (.obj doc)

/-- `extractSampleValuesForField`: collect up to 3 defined values of the
field (looked up by its `name`, not its full path) across the sample. -/
def extractSampleValuesForField :
    List (List (String × BVal)) → String → List BVal → List BVal
  | [], _, values => values
  | doc :: rest, fieldName, values =>
      match getNestedValue doc fieldName with
      | .undef => extractSampleValuesForField rest fieldName values
      | v =>
          let values2 := values ++ [v]
          if values2.length ≥ 3 then values2
          else extractSampleValuesForField rest fieldName values2

/-- `analyzeFields`: empty sample ⇒ no fields; otherwise fold every
document into the field map and attach up to 3 sample values per field. -/
def analyzeFields (samples : List (List (String × BVal))) : List FieldSchema :=
  if samples.isEmpty then []
  else
    (analyzeFieldMap samples).map (fun q =>
      { q.2 with sampleValues := extractSampleValuesForField samples q.2.name [] })

/-! ## Theorems: schema extractor `required` semantics (C3) -/

/-- The values explicitly present for top-level key `p` across the
sampled documents, in fold order. -/
def topOccurrences (p : String) (samples : List (List (String × BVal))) :
    List BVal :=
  samples.flatMap (fun doc => (doc.filter (fun kv => kv.1 == p)).map (fun kv => kv.2))

/-- The create/update fold of `extractFieldsFromDocument` restricted to
one field's occurrence list. -/
def foldOccurrences (p : String) (o : Option FieldSchema) (vs : List BVal) :
    Option FieldSchema :=
  vs.foldl
    (fun acc v =>
      match acc with
      | none => some (createFieldSchema p v)
      | some fs => some (updateFieldSchema fs v)) o

/-- Is a value neither `null` nor `undefined`? -/
def nonNullB : BVal → Bool
  | .null => false
  | .undef => false
  | _ => true

lemma lookupFM_setFM_ne (path q : String) (fs : FieldSchema) (h : path ≠ q) :
    ∀ m, lookupFM q (setFM path fs m) = lookupFM q m := by
  intro m
  induction m with
  | nil => rfl
  | cons kv rest ih =>
      obtain ⟨k, x⟩ := kv
      by_cases hk : k = path
      · simp only [setFM, List.map_cons, if_pos hk]
        unfold lookupFM
        rw [if_neg (fun he => h (hk ▸ he)), if_neg (fun he => h (hk ▸ he))]
        exact ih
      · simp only [setFM, List.map_cons, if_neg hk]
        unfold lookupFM
        by_cases hkq : k = q
        · rw [if_pos hkq, if_pos hkq]
        · rw [if_neg hkq, if_neg hkq]; exact ih

lemma lookupFM_append_ne (path q : String) (fs : FieldSchema) (h : path ≠ q) :
    ∀ m, lookupFM q (m ++ [(path, fs)]) = lookupFM q m := by
  intro m
  induction m with
  | nil =>
      rw [List.nil_append]
      unfold lookupFM
      rw [if_neg h]
      rfl
  | cons kv rest ih =>
      obtain ⟨k, x⟩ := kv
      rw [List.cons_append]
      unfold lookupFM
      by_cases hkq : k = q
      · rw [if_pos hkq, if_pos hkq]
      · rw [if_neg hkq, if_neg hkq]; exact ih

lemma lookupFM_setFM_self (path : String) (fs : FieldSchema) :
    ∀ m, lookupFM path (setFM path fs m) = (lookupFM path m).map (fun _ => fs) := by
  intro m
  induction m with
  | nil => rfl
  | cons kv rest ih =>
      obtain ⟨k, x⟩ := kv
      by_cases hk : k = path
      · simp only [setFM, List.map_cons, if_pos hk]
        unfold lookupFM
        rw [if_pos hk, if_pos hk]
        rfl
      · simp only [setFM, List.map_cons, if_neg hk]
        unfold lookupFM
        rw [if_neg hk, if_neg hk]
        exact ih

lemma lookupFM_append_self (path : String) (fs : FieldSchema) :
    ∀ m, lookupFM path m = none → lookupFM path (m ++ [(path, fs)]) = some fs := by
  intro m
  induction m with
  | nil =>
      intro _
      rw [List.nil_append]
      unfold lookupFM
      rw [if_pos rfl]
  | cons kv rest ih =>
      obtain ⟨k, x⟩ := kv
      intro h
      unfold lookupFM at h
      rw [List.cons_append]
      unfold lookupFM
      by_cases hk : k = path
      · rw [if_pos hk] at h; exact absurd h (by simp)
      · rw [if_neg hk] at h ⊢
        exact ih h

lemma jsPath_has_dot (pfx k : String) (h : pfx ≠ "") : '.' ∈ (jsPath pfx k).data := by
  unfold jsPath
  rw [if_neg h]
  simp [String.data_append]

lemma jsPath_ne_dotfree (pfx k p : String) (hpfx : pfx ≠ "") (hp : '.' ∉ p.data) :
    jsPath pfx k ≠ p := by
  intro he
  exact hp (he ▸ jsPath_has_dot pfx k hpfx)

lemma jsPath_ne_empty (pfx k : String) (hpfx : pfx ≠ "") : jsPath pfx k ≠ "" := by
  intro he
  have hd := jsPath_has_dot pfx k hpfx
  rw [he] at hd
  exact absurd hd (by simp)

/-- The single-entry insert-or-update step touches only its own path. -/
lemma lookupFM_step_ne (p path : String) (k : String) (v : BVal)
    (hne : path ≠ p) (m : List (String × FieldSchema)) :
    lookupFM p (match lookupFM path m with
      | some fs => setFM path (updateFieldSchema fs v) m
      | none => m ++ [(path, createFieldSchema k v)]) = lookupFM p m := by
  cases lookupFM path m with
  | some fs => exact lookupFM_setFM_ne path p _ hne m
  | none => exact lookupFM_append_ne path p _ hne m

/-- The per-entry step never touches a path other than its own
(given that nested writes, delegated to `child`, also stay away). -/
lemma extractStep_ne (p : String)
    (child : List (String × BVal) → String → List (String × FieldSchema) →
      List (String × FieldSchema))
    (hchild : ∀ kvs pfx m, pfx ≠ "" → lookupFM p (child kvs pfx m) = lookupFM p m)
    (k : String) (v : BVal) (pfx : String) (m : List (String × FieldSchema))
    (hpath_ne : jsPath pfx k ≠ p) (hpath_ne' : jsPath pfx k ≠ "") :
    lookupFM p (extractStep child k v pfx m) = lookupFM p m := by
  have hm1 := lookupFM_step_ne p (jsPath pfx k) k v hpath_ne m
  simp only [extractStep]
  cases v <;>
    first
      | exact hm1
      | (rw [hchild _ _ _ hpath_ne']; exact hm1)

/-- The per-entry step at top level on the tracked path `p` itself is the
create/update fold of the single value. -/
lemma extractStep_eq (p : String) (hp0 : p ≠ "")
    (child : List (String × BVal) → String → List (String × FieldSchema) →
      List (String × FieldSchema))
    (hchild : ∀ kvs pfx m, pfx ≠ "" → lookupFM p (child kvs pfx m) = lookupFM p m)
    (v : BVal) (m : List (String × FieldSchema)) :
    lookupFM p (extractStep child p v "" m)
      = foldOccurrences p (lookupFM p m) [v] := by
  have hpath : jsPath "" p = p := by simp [jsPath]
  have hm1 : lookupFM p (match lookupFM p m with
      | some fs => setFM p (updateFieldSchema fs v) m
      | none => m ++ [(p, createFieldSchema p v)])
      = foldOccurrences p (lookupFM p m) [v] := by
    cases hl : lookupFM p m with
    | some fs =>
        rw [lookupFM_setFM_self p _ m, hl]
        rfl
    | none =>
        rw [lookupFM_append_self p _ m hl]
        rfl
  simp only [extractStep, hpath]
  cases v <;>
    first
      | exact hm1
      | (rw [hchild _ _ _ hp0]; exact hm1)

/-- Walking a document under a non-empty prefix never touches a
dot-free path: every path it writes contains a `'.'`. -/
lemma extractDocF_preserves (p : String) (hp : '.' ∉ p.data)
    (child : List (String × BVal) → String → List (String × FieldSchema) →
      List (String × FieldSchema))
    (hchild : ∀ kvs pfx m, pfx ≠ "" → lookupFM p (child kvs pfx m) = lookupFM p m) :
    ∀ kvs pfx m, pfx ≠ "" →
      lookupFM p (extractDocF child kvs pfx m) = lookupFM p m := by
  intro kvs
  induction kvs with
  | nil => intro pfx m _; rfl
  | cons kv rest ih =>
      obtain ⟨k, v⟩ := kv
      intro pfx m hpfx
      simp only [extractDocF]
      rw [ih pfx _ hpfx]
      exact extractStep_ne p child hchild k v pfx m
        (jsPath_ne_dotfree pfx k p hpfx hp) (jsPath_ne_empty pfx k hpfx)

/-- Top-level characterization: under the empty prefix, the binding at a
dot-free, non-empty path `p` after folding one document equals the
occurrence fold of its explicit top-level values. -/
lemma extractDocF_top (p : String) (hp0 : p ≠ "") (hpdot : '.' ∉ p.data)
    (child : List (String × BVal) → String → List (String × FieldSchema) →
      List (String × FieldSchema))
    (hchild : ∀ kvs pfx m, pfx ≠ "" → lookupFM p (child kvs pfx m) = lookupFM p m) :
    ∀ kvs m, (∀ kv ∈ kvs, kv.1 ≠ ("" : String)) →
      lookupFM p (extractDocF child kvs "" m)
        = foldOccurrences p (lookupFM p m)
            ((kvs.filter (fun kv => kv.1 == p)).map (fun kv => kv.2)) := by
  intro kvs
  induction kvs with
  | nil => intro m _; rfl
  | cons kv rest ih =>
      obtain ⟨k, v⟩ := kv
      intro m hkeys
      have hk_ne : k ≠ "" := hkeys (k, v) (List.mem_cons_self _ _)
      have hkeys' : ∀ kv ∈ rest, kv.1 ≠ ("" : String) :=
        fun kv hkv => hkeys kv (List.mem_cons_of_mem _ hkv)
      simp only [extractDocF]
      rw [ih _ hkeys']
      by_cases hkp : k = p
      · subst hkp
        rw [extractStep_eq k hk_ne child hchild v m]
        rw [List.filter_cons_of_pos (by simp)]
        rw [List.map_cons]
        rfl
      · have hpk : jsPath "" k = k := by simp [jsPath]
        rw [extractStep_ne p child hchild k v "" m (by rw [hpk]; exact hkp)
          (by rw [hpk]; exact hk_ne)]
        rw [List.filter_cons_of_neg (by simpa using hkp)]

lemma extractDocDepth4_preserves (p : String) :
    ∀ kvs pfx m, pfx ≠ "" → lookupFM p (extractDocDepth4 kvs pfx m) = lookupFM p m :=
  fun _ _ _ _ => rfl

lemma extractDocDepth3_preserves (p : String) (hp : '.' ∉ p.data) :
    ∀ kvs pfx m, pfx ≠ "" → lookupFM p (extractDocDepth3 kvs pfx m) = lookupFM p m :=
  extractDocF_preserves p hp extractDocDepth4 (extractDocDepth4_preserves p)

lemma extractDocDepth2_preserves (p : String) (hp : '.' ∉ p.data) :
    ∀ kvs pfx m, pfx ≠ "" → lookupFM p (extractDocDepth2 kvs pfx m) = lookupFM p m :=
  extractDocF_preserves p hp extractDocDepth3 (extractDocDepth3_preserves p hp)

lemma extractDocDepth1_preserves (p : String) (hp : '.' ∉ p.data) :
    ∀ kvs pfx m, pfx ≠ "" → lookupFM p (extractDocDepth1 kvs pfx m) = lookupFM p m :=
  extractDocF_preserves p hp extractDocDepth2 (extractDocDepth2_preserves p hp)

/-- Folding every sampled document: the binding at a top-level path is the
occurrence fold of all its explicit values across the samples. -/
lemma analyzeFieldMap_fold (p : String) (hp0 : p ≠ "") (hpdot : '.' ∉ p.data) :
    ∀ (samples : List (List (String × BVal))) m,
      (∀ doc ∈ samples, ∀ kv ∈ doc, kv.1 ≠ ("" : String)) →
      lookupFM p (samples.foldl (fun m doc => extractDocDepth0 doc "" m) m)
        = foldOccurrences p (lookupFM p m) (topOccurrences p samples) := by
  intro samples
  induction samples with
  | nil => intro m _; rfl
  | cons doc rest ih =>
      intro m hkeys
      rw [List.foldl_cons]
      rw [ih _ (fun d hd kv hkv => hkeys d (List.mem_cons_of_mem _ hd) kv hkv)]
      have htop := extractDocF_top p hp0 hpdot extractDocDepth1
        (extractDocDepth1_preserves p hpdot) doc m
        (hkeys doc (List.mem_cons_self _ _))
      rw [show extractDocDepth0 doc "" m = extractDocF extractDocDepth1 doc "" m from rfl]
      rw [htop]
      rw [show topOccurrences p (doc :: rest)
        = ((doc.filter (fun kv => kv.1 == p)).map (fun kv => kv.2))
            ++ topOccurrences p rest from rfl]
      exact (List.foldl_append _ _ _ _).symm

lemma updateFieldSchema_required (fs : FieldSchema) (v : BVal) :
    (updateFieldSchema fs v).required = (fs.required && nonNullB v) := by
  cases v <;> (simp only [updateFieldSchema, nonNullB]; split <;> simp)

lemma createFieldSchema_required (p : String) (v : BVal) :
    (createFieldSchema p v).required = nonNullB v := by
  cases v <;> rfl

lemma foldOccurrences_required (p : String) :
    ∀ (vs : List BVal) (o : Option FieldSchema) (fs : FieldSchema),
      foldOccurrences p o vs = some fs →
      fs.required = ((match o with | some f0 => f0.required | none => true)
        && vs.all nonNullB) := by
  intro vs
  induction vs with
  | nil =>
      intro o fs h
      cases o with
      | none => exact absurd h (by simp [foldOccurrences])
      | some f0 =>
          have : f0 = fs := by simpa [foldOccurrences] using h
          subst this
          simp
  | cons v rest ih =>
      intro o fs h
      cases o with
      | none =>
          have h' : foldOccurrences p (some (createFieldSchema p v)) rest = some fs := h
          have := ih _ fs h'
          rw [this]
          simp [createFieldSchema_required, List.all_cons]
      | some f0 =>
          have h' : foldOccurrences p (some (updateFieldSchema f0 v)) rest = some fs := h
          have := ih _ fs h'
          rw [this]
          simp [updateFieldSchema_required, List.all_cons, Bool.and_assoc]

/-- C3 (counterexample): with samples `[{a: 1}, {}]` — field `a` present
(non-null) in the first document, absent from the second — the extractor
reports `required = true`, refuting the claim that partially-present
fields end up `required = false`. -/
theorem analyzeFields_absent_field_required_true :
    (analyzeFields [[("a", .num 1)], []]).map (fun f => (f.name, f.required))
      = [("a", true)] := by
  rfl

/-- C3 (amended): for a top-level field, `required` is governed solely by
the values explicitly present: the binding equals the create/update fold
of the field's explicit occurrences, and `required = true` iff every
explicit occurrence is non-null and non-undefined.  A document from which
the field is absent leaves `required` unchanged, so a field present
(non-null) in one sampled document and absent from another keeps
`required = true`. -/
theorem analyzeFields_required_iff_nonnull_occurrences
    (samples : List (List (String × BVal))) (p : String)
    (hp0 : p ≠ "") (hpdot : '.' ∉ p.data)
    (hkeys : ∀ doc ∈ samples, ∀ kv ∈ doc, kv.1 ≠ ("" : String)) :
    lookupFM p (analyzeFieldMap samples)
      = foldOccurrences p none (topOccurrences p samples) ∧
    (∀ fs, lookupFM p (analyzeFieldMap samples) = some fs →
      fs.required = (topOccurrences p samples).all nonNullB) ∧
    (analyzeFields samples).map (fun f => f.required)
      = (analyzeFieldMap samples).map (fun q => q.2.required) := by
  have h1 : lookupFM p (analyzeFieldMap samples)
      = foldOccurrences p none (topOccurrences p samples) :=
    analyzeFieldMap_fold p hp0 hpdot samples [] hkeys
  refine ⟨h1, ?_, ?_⟩
  · intro fs hfs
    rw [h1] at hfs
    have := foldOccurrences_required p (topOccurrences p samples) none fs hfs
    simpa using this
  · cases samples with
    | nil => rfl
    | cons d ds =>
        show ((analyzeFieldMap (d :: ds)).map _).map _ = _
        rw [List.map_map]
        rfl

theorem analyzeFields_required_iff_nonnull_occurrences_witness :
    lookupFM "a" (analyzeFieldMap [[("a", BVal.num 1)], []])
      = foldOccurrences "a" none (topOccurrences "a" [[("a", BVal.num 1)], []]) :=
  (analyzeFields_required_iff_nonnull_occurrences [[("a", BVal.num 1)], []] "a"
    (by decide) (by decide) (by decide)).1

/-! ## Relationship detector (`SchemaService.detectRelationships`,
`src/unnamed/part_001`, with `REGEX_PATTERNS.COLLECTION_REFERENCE` from
`utils/constants`) -/

/-- A detected cross-collection edge.  `fromColl`/`toColl` embed the
source record's `from`/`to` members (`from` is reserved in Lean). -/
structure Relationship where
  fromColl : String
  toColl : String
  field : String
  type : String
  direction : String
deriving Repr, DecidableEq

/-- The reference suffixes of the alternation `_(id|Id|ID|ref|Ref|REF)`. -/
def refSuffixes : List String := ["_id", "_Id", "_ID", "_ref", "_Ref", "_REF"]

/-- `String.endsWith` on character lists (kept structural). -/
def strEndsWith (s sfx : String) : Bool :=
  listIsPrefix sfx.data.reverse s.data.reverse

/-- Drop the last `n` characters. -/
def strDropRight (s : String) (n : Nat) : String :=
  String.mk (s.data.take (s.data.length - n))

/-- First character class of the reference pattern (`[a-zA-Z_]`). -/
def isRefStartChar (c : Char) : Bool := c.isAlpha || c == '_'

/-- `REGEX_PATTERNS.COLLECTION_REFERENCE`
(`/^[a-zA-Z_][a-zA-Z0-9_]*_(id|Id|ID|ref|Ref|REF)$/`): the name ends in
one of the six suffixes and everything before it is a non-empty word
starting with a letter or underscore. -/
def matchesCollectionReference (s : String) : Bool :=
  refSuffixes.any (fun sfx =>
    strEndsWith s sfx &&
      (match s.data.take (s.data.length - sfx.length) with
       | [] => false
       | c :: cs => isRefStartChar c && cs.all isWordChar))

/-- `fieldName.replace(/_(id|Id|ID|ref|Ref|REF)$/, '')`: strip one
trailing reference suffix if present. -/
def stripRefSuffix (fieldName : String) : String :=
  match refSuffixes.find? (fun sfx => strEndsWith fieldName sfx) with
  | some sfx => strDropRight fieldName sfx.length
  | none => fieldName

/-- `extractReferencedCollection`: strip the suffix, then try the exact,
pluralized (+s) and singularized (-s) base name against the known
collection names, in that order. -/
def extractReferencedCollection (fieldName : String) (collectionNames : List String) :
    Option String :=
  let baseName := stripRefSuffix fieldName
  if collectionNames.contains baseName then some baseName
  else if collectionNames.contains (baseName ++ "s") then some (baseName ++ "s")
  else
    if collectionNames.contains
        (if strEndsWith baseName "s" then strDropRight baseName 1 else baseName)
    then some (if strEndsWith baseName "s" then strDropRight baseName 1 else baseName)
    else none

/-- The ordered suffix patterns of `inferCollectionFromFieldName`
(`^(.+)Id$`, `^(.+)_id$`, `^(.+)Ref$`, `^(.+)_ref$`). -/
def refPatterns : List String := ["Id", "_id", "Ref", "_ref"]

/-- `inferCollectionFromFieldName`: on the first matching pattern, strip
it (greedy `(.+)` keeps everything before the suffix) and resolve the base
through `extractReferencedCollection`; no further patterns are tried. -/
def inferCollectionFromFieldName (fieldName : String) (collectionNames : List String) :
    Option String :=
  match refPatterns.find? (fun pat =>
      strEndsWith fieldName pat && fieldName.length > pat.length) with
  | some pat => extractReferencedCollection (strDropRight fieldName pat.length) collectionNames
  | none => none

/-- The 0–2 edges one field contributes: heuristic H1 (reference-suffix
name) and heuristic H2 (`objectId`-typed non-`_id` name), in source
order. -/
def candidateRelationships (collectionNames : List String) (cname : String)
    (f : FieldSchema) : List Relationship :=
  (if matchesCollectionReference f.name then
     match extractReferencedCollection f.name collectionNames with
     | some rc => [Relationship.mk cname rc f.name
         (if f.isArray then "one-to-many" else "one-to-one") "forward"]
     | none => []
   else []) ++
  (if f.type == "objectId" && f.name != "_id" then
     match inferCollectionFromFieldName f.name collectionNames with
     | some pc => [Relationship.mk cname pc f.name
         (if f.isArray then "one-to-many" else "one-to-one") "forward"]
     | none => []
   else [])

/-- The full edge list before deduplication: both heuristics over every
field of every collection, against the set of all collection names. -/
def genRelationships (collections : List CollectionSchema) : List Relationship :=
  collections.flatMap (fun c =>
    c.fields.flatMap (fun f =>
      candidateRelationships (collections.map (fun c' => c'.name)) c.name f))

/-- The dedup key `` `${from}-${to}-${field}` ``. -/
def relKey (r : Relationship) : String :=
  r.fromColl ++ "-" ++ r.toColl ++ "-" ++ r.field

/-- First-wins deduplication over relation keys (`Set<string>` of seen
keys). -/
def dedupGo (seen : List String) : List Relationship → List Relationship
  | [] => []
  | r :: rest =>
      if seen.contains (relKey r) then dedupGo seen rest
      else r :: dedupGo (relKey r :: seen) rest

/-- `deduplicateRelationships`. -/
def deduplicateRelationships (rels : List Relationship) : List Relationship :=
  dedupGo [] rels

/-- `detectRelationships`: generate candidate edges and deduplicate. -/
def detectRelationships (collections : List CollectionSchema) : List Relationship :=
  deduplicateRelationships (genRelationships collections)

/-! ## Theorems: relationship detection (C6) -/

lemma strContains_iff (l : List String) (a : String) : l.contains a = true ↔ a ∈ l := by
  simp

/-- Splitting at a separator absent from both left parts is unique. -/
lemma dash_append_inj (a : List Char) :
    ∀ (c b d : List Char), '-' ∉ a → '-' ∉ c →
      a ++ '-' :: b = c ++ '-' :: d → a = c ∧ b = d := by
  induction a with
  | nil =>
      intro c b d _ hc h
      cases c with
      | nil => simpa using h
      | cons y c' =>
          injection h with h1 h2
          exact absurd (h1 ▸ List.mem_cons_self y c') hc
  | cons x a' ih =>
      intro c b d ha hc h
      cases c with
      | nil =>
          injection h with h1 h2
          exact absurd (h1 ▸ List.mem_cons_self x a') ha
      | cons y c' =>
          injection h with h1 h2
          obtain ⟨e1, e2⟩ := ih c' b d
            (fun hm => ha (List.mem_cons_of_mem _ hm))
            (fun hm => hc (List.mem_cons_of_mem _ hm)) h2
          subst h1
          rw [e1]
          exact ⟨rfl, e2⟩

lemma dash_append_inj3 (a b c d e f : List Char)
    (ha : '-' ∉ a) (hb : '-' ∉ b) (hd : '-' ∉ d) (he : '-' ∉ e)
    (h : a ++ '-' :: (b ++ '-' :: c) = d ++ '-' :: (e ++ '-' :: f)) :
    a = d ∧ b = e ∧ c = f := by
  obtain ⟨h1, h2⟩ := dash_append_inj a d (b ++ '-' :: c) (e ++ '-' :: f) ha hd h
  obtain ⟨h3, h4⟩ := dash_append_inj b e c f hb he h2
  exact ⟨h1, h3, h4⟩

/-- When no component contains `'-'`, the dedup key determines the
`(from, to, field)` triple. -/
lemma relKey_inj (r1 r2 : Relationship)
    (d1 : '-' ∉ r1.fromColl.data) (d2 : '-' ∉ r1.toColl.data)
    (d4 : '-' ∉ r2.fromColl.data) (d5 : '-' ∉ r2.toColl.data)
    (h : relKey r1 = relKey r2) :
    r1.fromColl = r2.fromColl ∧ r1.toColl = r2.toColl ∧ r1.field = r2.field := by
  have hd : (relKey r1).data = (relKey r2).data := congrArg String.data h
  unfold relKey at hd
  simp only [String.data_append, List.append_assoc, List.singleton_append] at hd
  obtain ⟨e1, e2, e3⟩ := dash_append_inj3 _ _ _ _ _ _ d1 d2 d4 d5
    (by simpa using hd)
  exact ⟨String.ext e1, String.ext e2, String.ext e3⟩

lemma extractReferencedCollection_mem (fieldName : String) (names : List String)
    (x : String) (h : extractReferencedCollection fieldName names = some x) :
    x ∈ names := by
  simp only [extractReferencedCollection] at h
  split_ifs at h with h1 h2 h3 h4 <;>
    (injection h with he; subst he
     first
       | exact (strContains_iff _ _).mp h1
       | exact (strContains_iff _ _).mp h2
       | exact (strContains_iff _ _).mp h3
       | exact (strContains_iff _ _).mp h4)

lemma inferCollectionFromFieldName_mem (fieldName : String) (names : List String)
    (x : String) (h : inferCollectionFromFieldName fieldName names = some x) :
    x ∈ names := by
  unfold inferCollectionFromFieldName at h
  cases hf : refPatterns.find? (fun pat =>
      strEndsWith fieldName pat && fieldName.length > pat.length) with
  | some pat =>
      rw [hf] at h
      exact extractReferencedCollection_mem _ _ _ h
  | none => rw [hf] at h; exact absurd h (by simp)

/-- Everything but `toColl` in a candidate edge is determined by the
originating collection and field; `toColl` resolves inside the known
names. -/
lemma mem_candidateRelationships {names : List String} {cname : String}
    {f : FieldSchema} {r : Relationship}
    (h : r ∈ candidateRelationships names cname f) :
    r.fromColl = cname ∧ r.field = f.name ∧
    r.type = (if f.isArray then "one-to-many" else "one-to-one") ∧
    r.direction = "forward" ∧ r.toColl ∈ names := by
  unfold candidateRelationships at h
  rw [List.mem_append] at h
  rcases h with h | h
  · by_cases hm : matchesCollectionReference f.name = true
    · rw [if_pos hm] at h
      cases herc : extractReferencedCollection f.name names with
      | some rc =>
          rw [herc] at h
          have : r = Relationship.mk cname rc f.name
              (if f.isArray then "one-to-many" else "one-to-one") "forward" := by
            simpa using h
          subst this
          exact ⟨rfl, rfl, rfl, rfl, extractReferencedCollection_mem _ _ _ herc⟩
      | none => rw [herc] at h; exact absurd h (by simp)
    · rw [if_neg hm] at h; exact absurd h (by simp)
  · by_cases hm : (f.type == "objectId" && f.name != "_id") = true
    · rw [if_pos hm] at h
      cases hinf : inferCollectionFromFieldName f.name names with
      | some pc =>
          rw [hinf] at h
          have : r = Relationship.mk cname pc f.name
              (if f.isArray then "one-to-many" else "one-to-one") "forward" := by
            simpa using h
          subst this
          exact ⟨rfl, rfl, rfl, rfl, inferCollectionFromFieldName_mem _ _ _ hinf⟩
      | none => rw [hinf] at h; exact absurd h (by simp)
    · rw [if_neg hm] at h; exact absurd h (by simp)

/-- Two candidate edges of the same field with the same target are the
same edge. -/
lemma candidate_eq_of_toColl_eq {names : List String} {cname : String}
    {f : FieldSchema} {r1 r2 : Relationship}
    (h1 : r1 ∈ candidateRelationships names cname f)
    (h2 : r2 ∈ candidateRelationships names cname f)
    (hto : r1.toColl = r2.toColl) : r1 = r2 := by
  obtain ⟨a1, a2, a3, a4, _⟩ := mem_candidateRelationships h1
  obtain ⟨b1, b2, b3, b4, _⟩ := mem_candidateRelationships h2
  cases r1; cases r2
  simp_all

lemma mem_genRelationships {cols : List CollectionSchema} {r : Relationship} :
    r ∈ genRelationships cols ↔
      ∃ c ∈ cols, ∃ f ∈ c.fields,
        r ∈ candidateRelationships (cols.map (fun c' => c'.name)) c.name f := by
  unfold genRelationships
  simp [List.mem_flatMap]

/-- `extractReferencedCollection` depends on the name list only through
membership. -/
lemma extractReferencedCollection_congr (n1 n2 : List String)
    (hc : ∀ x, n1.contains x = n2.contains x) (fn : String) :
    extractReferencedCollection fn n1 = extractReferencedCollection fn n2 := by
  simp only [extractReferencedCollection, hc]

lemma inferCollectionFromFieldName_congr (n1 n2 : List String)
    (hc : ∀ x, n1.contains x = n2.contains x) (fn : String) :
    inferCollectionFromFieldName fn n1 = inferCollectionFromFieldName fn n2 := by
  unfold inferCollectionFromFieldName
  cases refPatterns.find? (fun pat => strEndsWith fn pat && fn.length > pat.length) with
  | some pat => exact extractReferencedCollection_congr n1 n2 hc _
  | none => rfl

lemma candidateRelationships_congr (n1 n2 : List String)
    (hc : ∀ x, n1.contains x = n2.contains x) (cname : String) (f : FieldSchema) :
    candidateRelationships n1 cname f = candidateRelationships n2 cname f := by
  unfold candidateRelationships
  rw [extractReferencedCollection_congr n1 n2 hc f.name,
    inferCollectionFromFieldName_congr n1 n2 hc f.name]

/-- Under key-injectivity of the input, deduplication only removes exact
repetitions: membership is preserved. -/
lemma dedupGo_mem (xs : List Relationship)
    (hinj : ∀ a ∈ xs, ∀ b ∈ xs, relKey a = relKey b → a = b) :
    ∀ seen r, (r ∈ dedupGo seen xs ↔ (r ∈ xs ∧ relKey r ∉ seen)) := by
  induction xs with
  | nil => intro seen r; simp [dedupGo]
  | cons h t ih =>
      have hinj' : ∀ a ∈ t, ∀ b ∈ t, relKey a = relKey b → a = b :=
        fun a ha b hb => hinj a (List.mem_cons_of_mem _ ha) b (List.mem_cons_of_mem _ hb)
      intro seen r
      unfold dedupGo
      by_cases hc : seen.contains (relKey h) = true
      · rw [if_pos hc, ih hinj' seen r]
        constructor
        · rintro ⟨hr, hn⟩
          exact ⟨List.mem_cons_of_mem _ hr, hn⟩
        · rintro ⟨hr, hn⟩
          rcases List.mem_cons.mp hr with he | ht'
          · exact absurd ((strContains_iff seen (relKey r)).mp (he ▸ hc)) hn
          · exact ⟨ht', hn⟩
      · rw [if_neg hc]
        constructor
        · intro hmem
          rcases List.mem_cons.mp hmem with he | hmem'
          · subst he
            exact ⟨List.mem_cons_self _ _,
              fun hs => hc ((strContains_iff seen (relKey r)).mpr hs)⟩
          · obtain ⟨hrt, hns⟩ := (ih hinj' (relKey h :: seen) r).mp hmem'
            exact ⟨List.mem_cons_of_mem _ hrt,
              fun hs => hns (List.mem_cons_of_mem _ hs)⟩
        · rintro ⟨hr, hn⟩
          rcases List.mem_cons.mp hr with he | ht'
          · subst he
            exact List.mem_cons_self _ _
          · by_cases hk : relKey r = relKey h
            · have : r = h :=
                hinj r (List.mem_cons_of_mem _ ht') h (List.mem_cons_self _ _) hk
              subst this
              exact List.mem_cons_self _ _
            · refine List.mem_cons_of_mem _ ((ih hinj' (relKey h :: seen) r).mpr
                ⟨ht', fun hs => ?_⟩)
              rcases List.mem_cons.mp hs with h1 | h2
              · exact hk h1
              · exact hn h2

/-- The deduplicated output has pairwise-distinct keys, all outside
`seen`. -/
lemma dedupGo_pairwise :
    ∀ (xs : List Relationship) (seen : List String),
      (dedupGo seen xs).Pairwise (fun a b => relKey a ≠ relKey b) ∧
      ∀ r ∈ dedupGo seen xs, relKey r ∉ seen := by
  intro xs
  induction xs with
  | nil => intro seen; exact ⟨List.Pairwise.nil, by simp [dedupGo]⟩
  | cons h t ih =>
      intro seen
      unfold dedupGo
      by_cases hc : seen.contains (relKey h) = true
      · rw [if_pos hc]
        exact ih seen
      · rw [if_neg hc]
        obtain ⟨hpw, hnot⟩ := ih (relKey h :: seen)
        refine ⟨List.Pairwise.cons ?_ hpw, ?_⟩
        · intro b hb he
          exact hnot b hb (he ▸ List.mem_cons_self _ _)
        · intro r hr
          rcases List.mem_cons.mp hr with he | hr'
          · subst he
            exact fun hs => hc ((strContains_iff seen (relKey r)).mpr hs)
          · exact fun hs => hnot r hr' (List.mem_cons_of_mem _ hs)

/-- Key-injectivity of the generated edge list under the amended
hypotheses (pairwise-distinct dash-free collection names, distinct
dash-free field names per collection). -/
lemma genRelationships_key_inj (cols : List CollectionSchema)
    (Hnodup : (cols.map (fun c => c.name)).Nodup)
    (Hfields : ∀ c ∈ cols, (c.fields.map (fun f => f.name)).Nodup)
    (Hdash : ∀ c ∈ cols, '-' ∉ c.name.data ∧ ∀ f ∈ c.fields, '-' ∉ f.name.data) :
    ∀ a ∈ genRelationships cols, ∀ b ∈ genRelationships cols,
      relKey a = relKey b → a = b := by
  intro a ha b hb hk
  obtain ⟨c1, hc1, f1, hf1, hcand1⟩ := mem_genRelationships.mp ha
  obtain ⟨c2, hc2, f2, hf2, hcand2⟩ := mem_genRelationships.mp hb
  obtain ⟨a1, a2, _, _, a5⟩ := mem_candidateRelationships hcand1
  obtain ⟨b1, b2, _, _, b5⟩ := mem_candidateRelationships hcand2
  have da1 : '-' ∉ a.fromColl.data := a1 ▸ (Hdash c1 hc1).1
  have da2 : '-' ∉ a.toColl.data := by
    obtain ⟨c'', hc'', hn⟩ := List.mem_map.mp a5
    exact hn ▸ (Hdash c'' hc'').1
  have db1 : '-' ∉ b.fromColl.data := b1 ▸ (Hdash c2 hc2).1
  have db2 : '-' ∉ b.toColl.data := by
    obtain ⟨c'', hc'', hn⟩ := List.mem_map.mp b5
    exact hn ▸ (Hdash c'' hc'').1
  obtain ⟨efrom, eto, efield⟩ := relKey_inj a b da1 da2 db1 db2 hk
  have hcc : c1 = c2 :=
    List.inj_on_of_nodup_map Hnodup hc1 hc2 (by rw [← a1, ← b1, efrom])
  subst hcc
  have hff : f1 = f2 :=
    List.inj_on_of_nodup_map (Hfields c1 hc1) hf1 hf2 (by rw [← a2, ← b2, efield])
  subst hff
  exact candidate_eq_of_toColl_eq hcand1 hcand2 eto

/-- C6 (counterexample): with two collections both named `orders` whose
`userId` fields differ only in array-ness, plus `users`, permuting the
input changes which duplicate wins deduplication, so the resulting
`(from,to,field,type)` sets differ — refuting order-independence for
arbitrary `CollectionSchema` lists. -/
theorem detectRelationships_order_dependent_duplicate_names :
    detectRelationships
        [CollectionSchema.mk "orders" [FieldSchema.mk "userId" "objectId" true false false []],
         CollectionSchema.mk "orders" [FieldSchema.mk "userId" "objectId" true true false []],
         CollectionSchema.mk "users" []]
      = [Relationship.mk "orders" "users" "userId" "one-to-one" "forward"] ∧
    detectRelationships
        [CollectionSchema.mk "orders" [FieldSchema.mk "userId" "objectId" true true false []],
         CollectionSchema.mk "orders" [FieldSchema.mk "userId" "objectId" true false false []],
         CollectionSchema.mk "users" []]
      = [Relationship.mk "orders" "users" "userId" "one-to-many" "forward"] ∧
    ([CollectionSchema.mk "orders" [FieldSchema.mk "userId" "objectId" true false false []],
      CollectionSchema.mk "orders" [FieldSchema.mk "userId" "objectId" true true false []],
      CollectionSchema.mk "users" []] : List CollectionSchema).Perm
      [CollectionSchema.mk "orders" [FieldSchema.mk "userId" "objectId" true true false []],
       CollectionSchema.mk "orders" [FieldSchema.mk "userId" "objectId" true false false []],
       CollectionSchema.mk "users" []] ∧
    Relationship.mk "orders" "users" "userId" "one-to-many" "forward" ∉
      detectRelationships
        [CollectionSchema.mk "orders" [FieldSchema.mk "userId" "objectId" true false false []],
         CollectionSchema.mk "orders" [FieldSchema.mk "userId" "objectId" true true false []],
         CollectionSchema.mk "users" []] := by
  refine ⟨rfl, rfl, ?_, ?_⟩
  · exact List.Perm.swap _ _ _
  · decide

/-- C6 (amended): when collection names are pairwise distinct, field
names are distinct within each collection, and no collection or field
name contains `'-'` (so the textual dedup key is faithful), relationship
detection is order-independent: any permutation of the input yields the
same set of edges.  Unconditionally, the output never contains two edges
sharing the `(from, to, field)` triple. -/
theorem detectRelationships_perm_invariant (cols cols' : List CollectionSchema) :
    ((cols.map (fun c => c.name)).Nodup →
     (∀ c ∈ cols, (c.fields.map (fun f => f.name)).Nodup) →
     (∀ c ∈ cols, '-' ∉ c.name.data ∧ ∀ f ∈ c.fields, '-' ∉ f.name.data) →
     cols.Perm cols' →
     (detectRelationships cols).toFinset = (detectRelationships cols').toFinset) ∧
    (detectRelationships cols).Pairwise
      (fun r1 r2 => ¬(r1.fromColl = r2.fromColl ∧ r1.toColl = r2.toColl ∧
        r1.field = r2.field)) := by
  constructor
  · intro h1 h2 h3 hperm
    have h1' : (cols'.map (fun c => c.name)).Nodup := ((hperm.map _).nodup_iff).mp h1
    have h2' : ∀ c ∈ cols', (c.fields.map (fun f => f.name)).Nodup :=
      fun c hc => h2 c (hperm.mem_iff.mpr hc)
    have h3' : ∀ c ∈ cols', '-' ∉ c.name.data ∧ ∀ f ∈ c.fields, '-' ∉ f.name.data :=
      fun c hc => h3 c (hperm.mem_iff.mpr hc)
    have hcong : ∀ x, (cols.map (fun c' => c'.name)).contains x
        = (cols'.map (fun c' => c'.name)).contains x := by
      intro x
      by_cases hx : x ∈ cols.map (fun c' => c'.name)
      · rw [(strContains_iff _ _).mpr hx, (strContains_iff _ _).mpr ((hperm.map _).mem_iff.mp hx)]
      · have hx' : x ∉ cols'.map (fun c' => c'.name) :=
          fun hm => hx ((hperm.map _).mem_iff.mpr hm)
        cases hcv : (cols.map (fun c' => c'.name)).contains x with
        | false =>
            cases hcv' : (cols'.map (fun c' => c'.name)).contains x with
            | false => rfl
            | true => exact absurd ((strContains_iff _ _).mp hcv') hx'
        | true => exact absurd ((strContains_iff _ _).mp hcv) hx
    have hgen : ∀ r, r ∈ genRelationships cols ↔ r ∈ genRelationships cols' := by
      intro r
      rw [mem_genRelationships, mem_genRelationships]
      constructor
      · rintro ⟨c, hc, f, hf, hcand⟩
        refine ⟨c, hperm.mem_iff.mp hc, f, hf, ?_⟩
        rw [← candidateRelationships_congr _ _ hcong c.name f]
        exact hcand
      · rintro ⟨c, hc, f, hf, hcand⟩
        refine ⟨c, hperm.mem_iff.mpr hc, f, hf, ?_⟩
        rw [candidateRelationships_congr _ _ hcong c.name f]
        exact hcand
    have hmem : ∀ r, r ∈ detectRelationships cols ↔ r ∈ genRelationships cols := by
      intro r
      unfold detectRelationships deduplicateRelationships
      rw [dedupGo_mem _ (genRelationships_key_inj cols h1 h2 h3) [] r]
      simp
    have hmem' : ∀ r, r ∈ detectRelationships cols' ↔ r ∈ genRelationships cols' := by
      intro r
      unfold detectRelationships deduplicateRelationships
      rw [dedupGo_mem _ (genRelationships_key_inj cols' h1' h2' h3') [] r]
      simp
    ext r
    simp only [List.mem_toFinset]
    rw [hmem r, hgen r, ← hmem' r]
  · have hpw := (dedupGo_pairwise (genRelationships cols) []).1
    refine List.Pairwise.imp ?_ hpw
    intro r1 r2 hne htrip
    apply hne
    unfold relKey
    rw [htrip.1, htrip.2.1, htrip.2.2]

theorem detectRelationships_perm_invariant_witness :
    (detectRelationships
        [CollectionSchema.mk "orders" [FieldSchema.mk "userId" "objectId" true false false []],
         CollectionSchema.mk "users" []]).toFinset
      = (detectRelationships
        [CollectionSchema.mk "users" [],
         CollectionSchema.mk "orders" [FieldSchema.mk "userId" "objectId" true false false []]]).toFinset :=
  (detectRelationships_perm_invariant
    [CollectionSchema.mk "orders" [FieldSchema.mk "userId" "objectId" true false false []],
     CollectionSchema.mk "users" []]
    [CollectionSchema.mk "users" [],
     CollectionSchema.mk "orders" [FieldSchema.mk "userId" "objectId" true false false []]]).1
    (by decide) (by decide) (by decide) (List.Perm.swap _ _ _)

end Dataverse
